import Mathlib

set_option linter.unusedVariables false

/-!
Shallow embedding of the cvp-pyez inventory synthesis engine.

Python dictionaries are modelled as insertion-ordered association lists
with string keys; `d[k] = v` is `dsetItem`, `del d[k]` is `ddel`
(returning `none` on `KeyError`), `k in d` is `dmem`, and `d[k]` reads
are `dget`.  Fallible code returns `Except String`.
-/

/-- Decidable equality for the result type of fallible embedded code,
so that concrete runs can be checked by evaluation. -/
instance {ε α : Type} [DecidableEq ε] [DecidableEq α] : DecidableEq (Except ε α) := fun x y =>
  match x, y with
  | .error a, .error b =>
    if h : a = b then isTrue (by rw [h]) else isFalse (by intro hh; cases hh; exact h rfl)
  | .ok a, .ok b =>
    if h : a = b then isTrue (by rw [h]) else isFalse (by intro hh; cases hh; exact h rfl)
  | .error _, .ok _ => isFalse (by intro hh; cases hh)
  | .ok _, .error _ => isFalse (by intro hh; cases hh)

/-- Python dict with string keys, modelled as an insertion-ordered
association list. -/
abbrev PyDict (V : Type) := List (String × V)

/-- Python `d[k]` read: value of the first entry with the given key. -/
def dget {V : Type} : PyDict V → String → Option V
  | [], _ => none
  | (k0, v0) :: rest, k => if k0 = k then some v0 else dget rest k

/-- Python `d[k] = v`: replace the value at an existing key in place,
otherwise append a new entry at the end. -/
def dsetItem {V : Type} : PyDict V → String → V → PyDict V
  | [], k, v => [(k, v)]
  | (k0, v0) :: rest, k, v =>
    if k0 = k then (k0, v) :: rest else (k0, v0) :: dsetItem rest k v

/-- Python `del d[k]`: remove the first entry with the given key, or
`none` (a `KeyError`) when the key is absent. -/
def ddel {V : Type} : PyDict V → String → Option (PyDict V)
  | [], _ => none
  | (k0, v0) :: rest, k =>
    if k0 = k then some rest else (ddel rest k).map (fun m => (k0, v0) :: m)

/-- Python `k in d`. -/
def dmem {V : Type} (m : PyDict V) (k : String) : Bool := (dget m k).isSome

/-- Python dict comprehension / `dict(...)` built from a list of pairs. -/
def dictOf {V : Type} (l : List (String × V)) : PyDict V :=
  l.foldl (fun m e => dsetItem m e.1 e.2) []

/-- Keys of a dict, in insertion order. -/
def dkeys {V : Type} (m : PyDict V) : List String := m.map Prod.fst

/-- A dict is well formed when its keys are pairwise distinct. -/
def dNodup {V : Type} (m : PyDict V) : Prop := (dkeys m).Nodup

/-! ### src/cvppyez/rest/client.py — address scheme -/

/-- The `CvpClientURLs.SHORTCUTS` mapping restricted to its string keys
(the `None` key, the default `/web` base, is handled separately as in
the source's else-branch). -/
def shortcutLookup : String → Option String
  | "$a" => some "/api/v1/rest/analytics"
  | "$r" => some "/api/v1/rest"
  | "$c" => some "/cvpservice"
  | "$n" => some "/api/v1/rest/analytics/network/v1"
  | _ => none

/-- Helper for Python `str.partition`: split at the first occurrence of
the separator, `none` when the separator does not occur. -/
def pyPartitionAux : List Char → Char → Option (List Char × List Char)
  | [], _ => none
  | c :: rest, sep =>
    if c = sep then some ([], rest)
    else (pyPartitionAux rest sep).map (fun p => (c :: p.1, p.2))

/-- Python `s.partition(sep)` projected to (before, after); when the
separator is absent Python returns `(s, sep-empty, empty)`, so the
projection is `(s, empty)`. -/
def pyPartition (s : String) (sep : Char) : String × String :=
  match pyPartitionAux s.data sep with
  | some p => (String.mk p.1, String.mk p.2)
  | none => (s, "")

/-- Python `request.url.startswith(dollar)` in `prepare_request`. -/
def startsWithDollar (s : String) : Bool :=
  match s.data with
  | '$' :: _ => true
  | _ => false

/-- URL resolution performed by `CvpSession.prepare_request`: a `$`
address is split at the first slash, its shortcut looked up in
`SHORTCUTS` (a missing key is a Python `KeyError`), and the remainder
re-prefixed with a slash; any other address goes under the default
`/web` base. -/
def resolveAddress (hostUrl : String) (addr : String) : Except String String :=
  if startsWithDollar addr then
    match shortcutLookup (pyPartition addr '/').1 with
    | none => .error ("KeyError: " ++ (pyPartition addr '/').1)
    | some apiBase => .ok (hostUrl ++ apiBase ++ ("/" ++ (pyPartition addr '/').2))
  else
    .ok (hostUrl ++ "/web" ++ addr)

/-! ### src/cvppyez/rest/client.py — session construction and login -/

/-- Python truthiness filter on an optional string: `None` and the empty
string are falsy. -/
def pyTruthyStr : Option String → Option String
  | some s => if s = "" then none else some s
  | none => none

/-- The `first(map(os.getenv, names))` expression in
`CvpSession._required_var`: the first truthy environment value, in
order. -/
def firstTruthyEnv (env : String → Option String) : List String → Option String
  | [] => none
  | n :: rest =>
    match pyTruthyStr (env n) with
    | some v => some v
    | none => firstTruthyEnv env rest

/-- `CvpSession._required_var`: the provided value when truthy, else the
first truthy environment fallback, else a fatal error. -/
def requiredVar (env : String → Option String) (names : List String)
    (name : String) (provided : Option String) : Except String String :=
  match pyTruthyStr provided with
  | some v => .ok v
  | none =>
    match firstTruthyEnv env names with
    | some v => .ok v
    | none => .error ("Missing required value for parameter: " ++ name)

/-- The credential state assembled by `CvpSession.__init__` before any
network call. -/
structure SessionConfig where
  hostUrl : String
  userId : String
  password : String
deriving DecidableEq

/-- Credential resolution in `CvpSession.__init__`: server then username
then password, each through `_required_var` with the `ENV` fallback
lists; the server is wrapped into an https URL. -/
def cvpSessionInit (env : String → Option String)
    (server username password : Option String) : Except String SessionConfig :=
  match requiredVar env ["CVP_SERVER"] "server" server with
  | .error e => .error e
  | .ok sv =>
    match requiredVar env ["CVP_USER", "USER"] "username" username with
    | .error e => .error e
    | .ok uv =>
      match requiredVar env ["CVP_PASSWORD", "PASSWORD"] "password" password with
      | .error e => .error e
      | .ok pv => .ok { hostUrl := "https://" ++ sv, userId := uv, password := pv }

/-- Abstraction of a `requests` response as far as `CvpSession.login`
inspects it: the HTTP status code and the two JSON body fields the
surrounding code ever reads. -/
structure HttpResponse where
  statusCode : Nat
  errorCode : Option String
  version : Option String
deriving DecidableEq

/-- `res.raise_for_status()`: an error for every 4xx/5xx status. -/
def raiseForStatus (r : HttpResponse) : Except String Unit :=
  if 400 ≤ r.statusCode then .error ("HTTPError: " ++ toString r.statusCode)
  else .ok ()

/-- `CvpSession.login`: post credentials, raise for status, fetch the
version endpoint, raise for status, then read the body's version field
(a missing field is a Python `KeyError`). -/
def cvpLogin (loginRes versionRes : HttpResponse) : Except String String :=
  match raiseForStatus loginRes with
  | .error e => .error e
  | .ok _ =>
    match raiseForStatus versionRes with
    | .error e => .error e
    | .ok _ =>
      match versionRes.version with
      | some v => .ok v
      | none => .error "KeyError: version"

/-- `CvpSession.__init__` with `login=True`: resolve credentials first,
then perform the login handshake against the two responses the network
would return. -/
def cvpConnect (env : String → Option String)
    (server username password : Option String)
    (loginRes versionRes : HttpResponse) : Except String (SessionConfig × String) :=
  match cvpSessionInit env server username password with
  | .error e => .error e
  | .ok cfg =>
    match cvpLogin loginRes versionRes with
    | .error e => .error e
    | .ok v => .ok (cfg, v)

/-! ### src/cvppyez/rest/client.py — notification decoding -/

/-- One entry of a notification record's `updates` mapping: the decoder
and its callers only ever read the `value` and `key` fields. -/
structure NotifItem (α : Type) where
  value : α
  key : α
deriving DecidableEq

/-- One notification record, carrying its `updates` dict. -/
structure NotifRecord (α : Type) where
  updates : PyDict (NotifItem α)
deriving DecidableEq

/-- The `extract` parameter of `extracto_notifications`. -/
inductive Extract where
  | value
  | key
deriving DecidableEq

/-- `item_data[extract]`. -/
def extractField {α : Type} : Extract → NotifItem α → α
  | .value, it => it.value
  | .key, it => it.key

/-- `CVPRestClient.extracto_notifications`: fold every record's updates,
in batch order, into one flat dict keyed by entity id. -/
def extractoNotifications {α : Type} (notifList : List (NotifRecord α))
    (ex : Extract) : PyDict α :=
  notifList.foldl
    (fun items notif =>
      notif.updates.foldl (fun items e => dsetItem items e.1 (extractField ex e.2)) items)
    []

/-! ### src/cvppyez/rest/devices.py -/

/-- The `first(upd)` expression in `PluginDevices.get_active_devices`:
iterating a dict yields its keys, and `first` returns the first truthy
(non-empty) one, defaulting to `None`. -/
def firstTruthyKey {α : Type} : PyDict α → Option String
  | [] => none
  | (k, _) :: rest => if k = "" then firstTruthyKey rest else some k

/-- Loop body of `PluginDevices.get_active_devices`: for each
notification record take `first(upd)` and store that entry's `value`
under it; `first` returning `None` makes the subsequent `upd[sn_key]`
lookup a `KeyError`. -/
def getActiveDevicesGo {α : Type} : List (NotifRecord α) → PyDict α → Except String (PyDict α)
  | [], res => .ok res
  | item :: rest, res =>
    match firstTruthyKey item.updates with
    | none => .error "KeyError: None"
    | some snKey =>
      match dget item.updates snKey with
      | some it => getActiveDevicesGo rest (dsetItem res snKey it.value)
      | none => .error ("KeyError: " ++ snKey)

/-- `PluginDevices.get_active_devices` applied to the decoded
notification list of the devices dataset. -/
def getActiveDevices {α : Type} (notifList : List (NotifRecord α)) :
    Except String (PyDict α) :=
  getActiveDevicesGo notifList []

/-! ### src/cvppyez/nornir/plugin_inventory.py -/

/-- One record of the `/inventory/devices` registry response, as far as
`CVPInventory.__init__` reads it. -/
structure DeviceRecord where
  fqdn : String
  ipAddress : String
  serialNumber : String
deriving DecidableEq

/-- One decoded status value from the `$a/DatasetInfo/Devices` dataset:
the reconciler reads its `hostname` and `status` fields. -/
structure StatusVal where
  hostname : String
  status : String
deriving DecidableEq

/-- Per-host attribute dict in the synthesized inventory. -/
structure HostAttrs where
  hostname : String
  groups : Option (List String)
deriving DecidableEq

/-- A removal reported by the reconciler's warning prints. -/
inductive Event where
  | removedInactive (hostname : String)
  | removedZombie (hostname : String)
deriving DecidableEq

/-- The `hosts` dict comprehension over the registry body. -/
def buildHosts (registry : List DeviceRecord) : PyDict HostAttrs :=
  dictOf (registry.map (fun dev => (dev.fqdn, { hostname := dev.ipAddress, groups := none })))

/-- The `sn_to_hn` dict comprehension over the registry body. -/
def snToHn (registry : List DeviceRecord) : PyDict String :=
  dictOf (registry.map (fun dev => (dev.serialNumber, dev.fqdn)))

/-- Removal pass (1) of `CVPInventory.__init__`: iterate the status
values in order and `del hosts[hostname]` for each non-active one,
printing a warning; a missing key is a Python `KeyError`. -/
def passInactive : PyDict StatusVal → PyDict HostAttrs → List Event →
    Except String (PyDict HostAttrs × List Event)
  | [], hosts, log => .ok (hosts, log)
  | (_, sv) :: rest, hosts, log =>
    if sv.status = "active" then passInactive rest hosts log
    else
      match ddel hosts sv.hostname with
      | some m => passInactive rest m (log ++ [Event.removedInactive sv.hostname])
      | none => .error ("KeyError: " ++ sv.hostname)

/-- Removal pass (2) of `CVPInventory.__init__`: for every registry
serial with no status record, `del hosts[sn_to_hn[sn]]`, printing a
warning. -/
def passZombie : PyDict String → PyDict StatusVal → PyDict HostAttrs → List Event →
    Except String (PyDict HostAttrs × List Event)
  | [], _, hosts, log => .ok (hosts, log)
  | (sn, hn) :: rest, hostStatus, hosts, log =>
    if dmem hostStatus sn then passZombie rest hostStatus hosts log
    else
      match ddel hosts hn with
      | some m => passZombie rest hostStatus m (log ++ [Event.removedZombie hn])
      | none => .error ("KeyError: " ++ hn)

/-- One record of a `/label/getLabels.do` response, as far as
`_get_tags` reads it. -/
structure LabelRecord where
  key : String
  netElementCount : Nat
deriving DecidableEq

/-- `r_dev_tags[hostname].append(tag_key)` on a `defaultdict(list)`. -/
def dAppendTag (m : PyDict (List String)) (hostname tagKey : String) :
    PyDict (List String) :=
  match dget m hostname with
  | some l => dsetItem m hostname (l ++ [tagKey])
  | none => m ++ [(hostname, [tagKey])]

/-- Inner loop of `_get_tags` over one label record: skip tags with a
zero `netElementCount`, otherwise record the tag key and append it to
every applied device's tag list. -/
def getTagsRecord (applied : String → List String)
    (acc : List String × PyDict (List String)) (record : LabelRecord) :
    List String × PyDict (List String) :=
  if record.netElementCount = 0 then acc
  else
    ((acc.1 ++ [record.key]),
      (applied record.key).foldl (fun m hn => dAppendTag m hn record.key) acc.2)

/-- `_get_tags`: fold every requested category's label records, where
`labels` gives the `getLabels.do` records per category and `applied`
the `getAppliedDevices.do` hostnames per tag key. -/
def getTags (labels : String → List LabelRecord) (applied : String → List String)
    (tagList : List String) : List String × PyDict (List String) :=
  tagList.foldl (fun acc tagName => (labels tagName).foldl (getTagsRecord applied) acc)
    ([], [])

/-- The loop `hosts[dev_name]['groups'] = tag_list` over the resolved
device tags: reading `hosts[dev_name]` is a `KeyError` when the device
is no longer a host. -/
def attachGroups : PyDict HostAttrs → PyDict (List String) →
    Except String (PyDict HostAttrs)
  | hosts, [] => .ok hosts
  | hosts, (devName, tagList) :: rest =>
    match dget hosts devName with
    | some h => attachGroups (dsetItem hosts devName { h with groups := some tagList }) rest
    | none => .error ("KeyError: " ++ devName)

/-- The `groups[tag_name] = dict()` loop over the accumulated tag keys. -/
def buildGroups (tags : List String) : PyDict Unit :=
  dictOf (tags.map (fun t => (t, ())))

/-- The synthesized inventory: surviving hosts, group definitions, the
fixed defaults dict, and the reported removal events. -/
structure InventoryResult where
  hosts : PyDict HostAttrs
  groups : PyDict Unit
  defaults : PyDict String
  log : List Event
deriving DecidableEq

/-- `CVPInventory.__init__` with the fetched data supplied as inputs:
build the registry-derived dicts, run removal passes (1) and (2), then
— when a truthy `groupby_tags` was given — resolve tags, attach group
membership and build the group definitions. -/
def synthesize (registry : List DeviceRecord) (hostStatus : PyDict StatusVal)
    (groupbyTags : Option (List String)) (labels : String → List LabelRecord)
    (applied : String → List String) : Except String InventoryResult :=
  match passInactive hostStatus (buildHosts registry) [] with
  | .error e => .error e
  | .ok (hosts1, log1) =>
    match passZombie (snToHn registry) hostStatus hosts1 log1 with
    | .error e => .error e
    | .ok (hosts2, log2) =>
      match groupbyTags with
      | none => .ok { hosts := hosts2, groups := [], defaults := [("platform", "eos")], log := log2 }
      | some tagList =>
        if tagList = [] then
          .ok { hosts := hosts2, groups := [], defaults := [("platform", "eos")], log := log2 }
        else
          match attachGroups hosts2 (getTags labels applied tagList).2 with
          | .error e => .error e
          | .ok hosts3 =>
            .ok { hosts := hosts3, groups := buildGroups (getTags labels applied tagList).1,
                  defaults := [("platform", "eos")], log := log2 }

/-! ### Specification-side definitions used to characterize the removal passes -/

/-- The hostnames removal pass (1) deletes, in processing order: one per
non-active status record. -/
def delKeysA : PyDict StatusVal → List String
  | [] => []
  | (_, sv) :: rest =>
    if sv.status = "active" then delKeysA rest else sv.hostname :: delKeysA rest

/-- The hostnames removal pass (2) deletes, in processing order: one per
serial-to-hostname entry whose serial has no status record. -/
def delKeysB (hostStatus : PyDict StatusVal) : PyDict String → List String
  | [] => []
  | (sn, hn) :: rest =>
    if dmem hostStatus sn then delKeysB hostStatus rest
    else hn :: delKeysB hostStatus rest

/-- Removing a set of keys from a dict in one sweep, keeping the relative
order of the remaining entries. -/
def dFilterOut {V : Type} : PyDict V → List String → PyDict V
  | [], _ => []
  | e :: rest, ks => if e.1 ∈ ks then dFilterOut rest ks else e :: dFilterOut rest ks

/-! ### Specification-side definitions used to characterize the decoders -/

/-- Specification reading of last-write-wins decoding: the value stored
under an id is the one carried by the last pair bearing that id. -/
def lastWins {α : Type} : List (String × NotifItem α) → String → Option (NotifItem α)
  | [], _ => none
  | e :: rest, id =>
    match lastWins rest id with
    | some v => some v
    | none => if e.1 = id then some e.2 else none

/-- All update pairs of a notification batch, flattened in batch order. -/
def allUpdatePairs {α : Type} : List (NotifRecord α) → List (String × NotifItem α)
  | [] => []
  | n :: rest => n.updates ++ allUpdatePairs rest

/-- Reduction of a notification record to the single entry that
`get_active_devices` actually consumes: its first entry with a truthy
(non-empty) key, or no entry at all when there is none. -/
def keepFirstTruthy {α : Type} (r : NotifRecord α) : NotifRecord α :=
  match firstTruthyKey r.updates with
  | none => ⟨[]⟩
  | some k =>
    match dget r.updates k with
    | some it => ⟨[(k, it)]⟩
    | none => ⟨[]⟩

/-! ### Basic dictionary lemmas -/

theorem dget_cons {V : Type} (k0 : String) (v0 : V) (rest : PyDict V) (k : String) :
    dget ((k0, v0) :: rest) k = if k0 = k then some v0 else dget rest k := rfl

theorem dsetItem_cons {V : Type} (k0 : String) (v0 : V) (rest : PyDict V) (k : String) (v : V) :
    dsetItem ((k0, v0) :: rest) k v =
      if k0 = k then (k0, v) :: rest else (k0, v0) :: dsetItem rest k v := rfl

theorem ddel_cons {V : Type} (k0 : String) (v0 : V) (rest : PyDict V) (k : String) :
    ddel ((k0, v0) :: rest) k =
      if k0 = k then some rest else (ddel rest k).map (fun m => (k0, v0) :: m) := rfl

theorem dkeys_cons {V : Type} (k0 : String) (v0 : V) (rest : PyDict V) :
    dkeys ((k0, v0) :: rest) = k0 :: dkeys rest := rfl

theorem dget_eq_none_iff {V : Type} (m : PyDict V) (k : String) :
    dget m k = none ↔ k ∉ dkeys m := by
  induction m with
  | nil => simp [dget, dkeys]
  | cons e rest ih =>
    obtain ⟨k0, v0⟩ := e
    rw [dget_cons, dkeys_cons]
    by_cases h : k0 = k
    · subst h
      simp
    · rw [if_neg h, ih, List.mem_cons, not_or]
      have hk : ¬k = k0 := fun hh => h hh.symm
      simp [hk]

theorem dget_mem {V : Type} {m : PyDict V} {k : String} {v : V}
    (h : (k, v) ∈ m) : dget m k ≠ none := by
  intro hnone
  exact (dget_eq_none_iff m k).mp hnone (List.mem_map.mpr ⟨(k, v), h, rfl⟩)

theorem dget_dsetItem_self {V : Type} (m : PyDict V) (k : String) (v : V) :
    dget (dsetItem m k v) k = some v := by
  induction m with
  | nil => simp [dsetItem, dget]
  | cons e rest ih =>
    obtain ⟨k0, v0⟩ := e
    rw [dsetItem_cons]
    by_cases h : k0 = k
    · rw [if_pos h, dget_cons, if_pos h]
    · rw [if_neg h, dget_cons, if_neg h]
      exact ih

theorem dget_dsetItem_ne {V : Type} (m : PyDict V) (k : String) (v : V)
    {k' : String} (hne : k' ≠ k) : dget (dsetItem m k v) k' = dget m k' := by
  have hkk : ¬k = k' := fun hh => hne hh.symm
  induction m with
  | nil =>
    show dget [(k, v)] k' = dget [] k'
    rw [dget_cons, if_neg hkk]
  | cons e rest ih =>
    obtain ⟨k0, v0⟩ := e
    rw [dsetItem_cons]
    by_cases h : k0 = k
    · rw [if_pos h, dget_cons, dget_cons]
      have hne0 : ¬k0 = k' := by rw [h]; exact hkk
      rw [if_neg hne0, if_neg hne0]
    · rw [if_neg h, dget_cons, dget_cons, ih]

theorem dkeys_dsetItem_of_mem {V : Type} (m : PyDict V) (k : String) (v : V) :
    k ∈ dkeys m → dkeys (dsetItem m k v) = dkeys m := by
  induction m with
  | nil => intro h; simp [dkeys] at h
  | cons e rest ih =>
    intro h
    obtain ⟨k0, v0⟩ := e
    rw [dsetItem_cons]
    by_cases h0 : k0 = k
    · rw [if_pos h0, dkeys_cons, dkeys_cons]
    · rw [if_neg h0, dkeys_cons, dkeys_cons]
      rw [dkeys_cons] at h
      have hk : k ∈ dkeys rest := by
        rcases List.mem_cons.mp h with h1 | h1
        · exact absurd h1.symm h0
        · exact h1
      rw [ih hk]

theorem dsetItem_of_not_mem {V : Type} (m : PyDict V) (k : String) (v : V) :
    k ∉ dkeys m → dsetItem m k v = m ++ [(k, v)] := by
  induction m with
  | nil => intro _; rfl
  | cons e rest ih =>
    intro h
    obtain ⟨k0, v0⟩ := e
    rw [dkeys_cons, List.mem_cons, not_or] at h
    rw [dsetItem_cons, if_neg (fun hh => h.1 hh.symm), ih h.2]
    rfl

theorem dNodup_dsetItem {V : Type} {m : PyDict V} (hn : dNodup m)
    (k : String) (v : V) : dNodup (dsetItem m k v) := by
  by_cases h : k ∈ dkeys m
  · unfold dNodup
    rw [dkeys_dsetItem_of_mem m k v h]
    exact hn
  · unfold dNodup at hn ⊢
    rw [dsetItem_of_not_mem m k v h]
    unfold dkeys at h hn ⊢
    rw [List.map_append, List.nodup_append]
    refine ⟨hn, List.nodup_singleton _, ?_⟩
    intro a ha hb
    simp at hb
    exact h (hb ▸ ha)

theorem ddel_eq_none_iff {V : Type} (m : PyDict V) (k : String) :
    ddel m k = none ↔ dget m k = none := by
  induction m with
  | nil => simp [ddel, dget]
  | cons e rest ih =>
    obtain ⟨k0, v0⟩ := e
    rw [ddel_cons, dget_cons]
    by_cases h : k0 = k
    · simp [h]
    · rw [if_neg h, if_neg h]
      simp [ih]

theorem ddel_isSome_of_mem {V : Type} {m : PyDict V} {k : String}
    (h : dget m k ≠ none) : ∃ m', ddel m k = some m' := by
  cases hd : ddel m k with
  | none => exact absurd ((ddel_eq_none_iff m k).mp hd) h
  | some m' => exact ⟨m', rfl⟩

theorem ddel_sublist {V : Type} (m : PyDict V) (k : String) :
    ∀ m', ddel m k = some m' → m'.Sublist m := by
  induction m with
  | nil => intro m' h; simp [ddel] at h
  | cons e rest ih =>
    intro m' h
    obtain ⟨k0, v0⟩ := e
    rw [ddel_cons] at h
    by_cases h0 : k0 = k
    · rw [if_pos h0] at h
      have heq := Option.some.inj h
      subst heq
      exact List.sublist_cons_self _ _
    · rw [if_neg h0] at h
      cases hd : ddel rest k with
      | none => rw [hd] at h; simp at h
      | some m1 =>
        rw [hd] at h
        have heq := Option.some.inj h
        subst heq
        exact (ih m1 hd).cons₂ (k0, v0)

theorem dNodup_ddel {V : Type} {m m' : PyDict V} {k : String}
    (hn : dNodup m) (h : ddel m k = some m') : dNodup m' :=
  List.Nodup.sublist ((ddel_sublist m k m' h).map Prod.fst) hn

theorem dget_ddel_ne {V : Type} (m : PyDict V) (k : String) :
    ∀ m', ddel m k = some m' → ∀ k', k' ≠ k → dget m' k' = dget m k' := by
  induction m with
  | nil => intro m' h; simp [ddel] at h
  | cons e rest ih =>
    intro m' h k' hne
    obtain ⟨k0, v0⟩ := e
    rw [ddel_cons] at h
    by_cases h0 : k0 = k
    · rw [if_pos h0] at h
      have heq := Option.some.inj h
      subst heq
      rw [dget_cons]
      have : ¬k0 = k' := by rw [h0]; exact fun hh => hne hh.symm
      rw [if_neg this]
    · rw [if_neg h0] at h
      cases hd : ddel rest k with
      | none => rw [hd] at h; simp at h
      | some m1 =>
        rw [hd] at h
        have heq := Option.some.inj h
        subst heq
        rw [dget_cons, dget_cons, ih m1 hd k' hne]

theorem dget_ddel_self {V : Type} (m : PyDict V) (k : String) :
    dNodup m → ∀ m', ddel m k = some m' → dget m' k = none := by
  induction m with
  | nil => intro _ m' h; simp [ddel] at h
  | cons e rest ih =>
    intro hn m' h
    obtain ⟨k0, v0⟩ := e
    rw [ddel_cons] at h
    unfold dNodup at hn
    rw [dkeys_cons, List.nodup_cons] at hn
    by_cases h0 : k0 = k
    · rw [if_pos h0] at h
      have heq := Option.some.inj h
      subst heq
      rw [dget_eq_none_iff]
      rw [← h0]
      exact hn.1
    · rw [if_neg h0] at h
      cases hd : ddel rest k with
      | none => rw [hd] at h; simp at h
      | some m1 =>
        rw [hd] at h
        have heq := Option.some.inj h
        subst heq
        rw [dget_cons, if_neg h0]
        exact ih hn.2 m1 hd

theorem dget_sublist_ne_none {V : Type} {m m' : PyDict V}
    (hs : m'.Sublist m) {k : String} (h : dget m' k ≠ none) : dget m k ≠ none := by
  intro hnone
  apply h
  rw [dget_eq_none_iff] at hnone ⊢
  intro hmem
  exact hnone ((hs.map Prod.fst).subset hmem)

theorem dNodup_dictOf_aux {V : Type} (l : List (String × V)) :
    ∀ m : PyDict V, dNodup m → dNodup (l.foldl (fun m e => dsetItem m e.1 e.2) m) := by
  induction l with
  | nil => intro m hm; exact hm
  | cons e rest ih =>
    intro m hm
    exact ih _ (dNodup_dsetItem hm e.1 e.2)

theorem dNodup_dictOf {V : Type} (l : List (String × V)) : dNodup (dictOf l) :=
  dNodup_dictOf_aux l [] (by simp [dNodup, dkeys])

theorem dget_foldl_ne_none {V : Type} (l : List (String × V)) :
    ∀ (m : PyDict V) (k : String),
      dget (l.foldl (fun m e => dsetItem m e.1 e.2) m) k ≠ none ↔
        dget m k ≠ none ∨ k ∈ l.map Prod.fst := by
  induction l with
  | nil => intro m k; simp
  | cons e rest ih =>
    intro m k
    rw [List.foldl_cons, ih]
    by_cases h : k = e.1
    · subst h
      simp [dget_dsetItem_self]
    · simp [dget_dsetItem_ne m e.1 e.2 h, h]

theorem dget_dictOf_ne_none {V : Type} (l : List (String × V)) (k : String) :
    dget (dictOf l) k ≠ none ↔ k ∈ l.map Prod.fst := by
  rw [dictOf, dget_foldl_ne_none]
  simp [dget]

theorem dictOf_eq_self_aux {V : Type} (l : List (String × V)) :
    ∀ m : PyDict V, (∀ k ∈ l.map Prod.fst, k ∉ dkeys m) → (l.map Prod.fst).Nodup →
      l.foldl (fun m e => dsetItem m e.1 e.2) m = m ++ l := by
  induction l with
  | nil => intro m _ _; simp
  | cons e rest ih =>
    intro m hdisj hnd
    obtain ⟨k1, v1⟩ := e
    simp only [List.map_cons, List.nodup_cons] at hnd
    simp only [List.map_cons] at hdisj
    rw [List.foldl_cons]
    rw [show dsetItem m (k1, v1).1 (k1, v1).2 = dsetItem m k1 v1 from rfl]
    rw [dsetItem_of_not_mem m k1 v1 (hdisj k1 (by simp))]
    have hd : ∀ k ∈ rest.map Prod.fst, k ∉ dkeys (m ++ [(k1, v1)]) := by
      intro k hk hmem
      unfold dkeys at hmem
      rw [List.map_append] at hmem
      rcases List.mem_append.mp hmem with hm | hm
      · exact hdisj k (List.mem_cons_of_mem _ hk) hm
      · simp at hm
        exact hnd.1 (hm ▸ hk)
    rw [ih (m ++ [(k1, v1)]) hd hnd.2, List.append_assoc]
    rfl

theorem dictOf_eq_self {V : Type} {l : List (String × V)}
    (h : (l.map Prod.fst).Nodup) : dictOf l = l := by
  rw [dictOf, dictOf_eq_self_aux l [] (by simp [dkeys]) h]
  simp

theorem mem_dkeys_of_dget {V : Type} {m : PyDict V} {k : String}
    (h : dget m k ≠ none) : k ∈ dkeys m := by
  by_contra hk
  exact h ((dget_eq_none_iff m k).mpr hk)

/-! ### Removal-pass lemmas -/

theorem passInactive_cons (sn : String) (sv : StatusVal) (rest : PyDict StatusVal)
    (hosts : PyDict HostAttrs) (log : List Event) :
    passInactive ((sn, sv) :: rest) hosts log =
      if sv.status = "active" then passInactive rest hosts log
      else
        match ddel hosts sv.hostname with
        | some m => passInactive rest m (log ++ [Event.removedInactive sv.hostname])
        | none => .error ("KeyError: " ++ sv.hostname) := rfl

theorem passZombie_cons (sn hn : String) (rest : PyDict String)
    (hostStatus : PyDict StatusVal) (hosts : PyDict HostAttrs) (log : List Event) :
    passZombie ((sn, hn) :: rest) hostStatus hosts log =
      if dmem hostStatus sn then passZombie rest hostStatus hosts log
      else
        match ddel hosts hn with
        | some m => passZombie rest hostStatus m (log ++ [Event.removedZombie hn])
        | none => .error ("KeyError: " ++ hn) := rfl

theorem attachGroups_cons (hosts : PyDict HostAttrs) (devName : String)
    (tagList : List String) (rest : PyDict (List String)) :
    attachGroups hosts ((devName, tagList) :: rest) =
      match dget hosts devName with
      | some h => attachGroups (dsetItem hosts devName { h with groups := some tagList }) rest
      | none => .error ("KeyError: " ++ devName) := rfl

theorem passInactive_ok_parts (st : PyDict StatusVal) :
    ∀ hosts log m' log', passInactive st hosts log = .ok (m', log') →
      m'.Sublist hosts ∧ ∃ d, log' = log ++ d := by
  induction st with
  | nil =>
    intro hosts log m' log' h
    simp only [passInactive, Except.ok.injEq, Prod.mk.injEq] at h
    obtain ⟨h1, h2⟩ := h
    subst h1
    subst h2
    exact ⟨List.Sublist.refl _, [], by simp⟩
  | cons q rest ih =>
    intro hosts log m' log' h
    obtain ⟨sn, sv⟩ := q
    rw [passInactive_cons] at h
    by_cases hact : sv.status = "active"
    · rw [if_pos hact] at h
      exact ih hosts log m' log' h
    · rw [if_neg hact] at h
      cases hd : ddel hosts sv.hostname with
      | none => rw [hd] at h; simp at h
      | some m1 =>
        rw [hd] at h
        obtain ⟨hs, d, hld⟩ := ih m1 _ m' log' h
        refine ⟨hs.trans (ddel_sublist hosts sv.hostname m1 hd),
          Event.removedInactive sv.hostname :: d, ?_⟩
        rw [hld]
        simp

theorem passInactive_removes (st : PyDict StatusVal) :
    ∀ hosts log m' log', dNodup hosts → passInactive st hosts log = .ok (m', log') →
      ∀ p ∈ st, p.2.status ≠ "active" →
        dget m' p.2.hostname = none ∧ Event.removedInactive p.2.hostname ∈ log' := by
  induction st with
  | nil =>
    intro hosts log m' log' _ _ p hp
    simp at hp
  | cons q rest ih =>
    intro hosts log m' log' hn h p hp hact
    obtain ⟨sn, sv⟩ := q
    rw [passInactive_cons] at h
    rcases List.mem_cons.mp hp with rfl | hp'
    · have hact' : ¬sv.status = "active" := hact
      rw [if_neg hact'] at h
      cases hd : ddel hosts sv.hostname with
      | none => rw [hd] at h; simp at h
      | some m1 =>
        rw [hd] at h
        have h1 : dget m1 sv.hostname = none := dget_ddel_self hosts sv.hostname hn m1 hd
        obtain ⟨hs, d, hld⟩ := passInactive_ok_parts rest m1 _ m' log' h
        constructor
        · rw [dget_eq_none_iff] at h1 ⊢
          intro hmem
          exact h1 ((hs.map Prod.fst).subset hmem)
        · rw [hld]
          simp
    · by_cases hq : sv.status = "active"
      · rw [if_pos hq] at h
        exact ih hosts log m' log' hn h p hp' hact
      · rw [if_neg hq] at h
        cases hd : ddel hosts sv.hostname with
        | none => rw [hd] at h; simp at h
        | some m1 =>
          rw [hd] at h
          exact ih m1 _ m' log' (dNodup_ddel hn hd) h p hp' hact

theorem passInactive_error (st : PyDict StatusVal) :
    ∀ hosts log, (∃ p ∈ st, p.2.status ≠ "active" ∧ dget hosts p.2.hostname = none) →
      ∃ e, passInactive st hosts log = .error e := by
  induction st with
  | nil =>
    intro hosts log h
    obtain ⟨p, hp, _⟩ := h
    simp at hp
  | cons q rest ih =>
    intro hosts log h
    obtain ⟨sn, sv⟩ := q
    obtain ⟨p, hp, hact, habs⟩ := h
    rw [passInactive_cons]
    rcases List.mem_cons.mp hp with rfl | hp'
    · have hact' : ¬sv.status = "active" := hact
      rw [if_neg hact']
      have hdel : ddel hosts sv.hostname = none := (ddel_eq_none_iff _ _).mpr habs
      rw [hdel]
      exact ⟨_, rfl⟩
    · by_cases hq : sv.status = "active"
      · rw [if_pos hq]
        exact ih hosts log ⟨p, hp', hact, habs⟩
      · rw [if_neg hq]
        cases hd : ddel hosts sv.hostname with
        | none => exact ⟨_, rfl⟩
        | some m1 =>
          apply ih m1
          refine ⟨p, hp', hact, ?_⟩
          rw [dget_eq_none_iff] at habs ⊢
          intro hmem
          exact habs (((ddel_sublist hosts sv.hostname m1 hd).map Prod.fst).subset hmem)

theorem passZombie_ok_parts (s2h : PyDict String) (hostStatus : PyDict StatusVal) :
    ∀ hosts log m' log', passZombie s2h hostStatus hosts log = .ok (m', log') →
      m'.Sublist hosts ∧ ∃ d, log' = log ++ d := by
  induction s2h with
  | nil =>
    intro hosts log m' log' h
    simp only [passZombie, Except.ok.injEq, Prod.mk.injEq] at h
    obtain ⟨h1, h2⟩ := h
    subst h1
    subst h2
    exact ⟨List.Sublist.refl _, [], by simp⟩
  | cons q rest ih =>
    intro hosts log m' log' h
    obtain ⟨sn, hn⟩ := q
    rw [passZombie_cons] at h
    by_cases hm : dmem hostStatus sn
    · rw [if_pos hm] at h
      exact ih hosts log m' log' h
    · rw [if_neg hm] at h
      cases hd : ddel hosts hn with
      | none => rw [hd] at h; simp at h
      | some m1 =>
        rw [hd] at h
        obtain ⟨hs, d, hld⟩ := ih m1 _ m' log' h
        refine ⟨hs.trans (ddel_sublist hosts hn m1 hd), Event.removedZombie hn :: d, ?_⟩
        rw [hld]
        simp

theorem passZombie_removes (s2h : PyDict String) (hostStatus : PyDict StatusVal) :
    ∀ hosts log m' log', dNodup hosts → passZombie s2h hostStatus hosts log = .ok (m', log') →
      ∀ p ∈ s2h, dmem hostStatus p.1 = false →
        dget m' p.2 = none ∧ Event.removedZombie p.2 ∈ log' := by
  induction s2h with
  | nil =>
    intro hosts log m' log' _ _ p hp
    simp at hp
  | cons q rest ih =>
    intro hosts log m' log' hn h p hp hmem
    obtain ⟨sn, hn0⟩ := q
    rw [passZombie_cons] at h
    rcases List.mem_cons.mp hp with rfl | hp'
    · have hmem' : ¬dmem hostStatus sn = true := by
        intro hh
        rw [hmem] at hh
        cases hh
      rw [if_neg hmem'] at h
      cases hd : ddel hosts hn0 with
      | none => rw [hd] at h; simp at h
      | some m1 =>
        rw [hd] at h
        have h1 : dget m1 hn0 = none := dget_ddel_self hosts hn0 hn m1 hd
        obtain ⟨hs, d, hld⟩ := passZombie_ok_parts rest hostStatus m1 _ m' log' h
        constructor
        · rw [dget_eq_none_iff] at h1 ⊢
          intro hmem2
          exact h1 ((hs.map Prod.fst).subset hmem2)
        · rw [hld]
          simp
    · by_cases hq : dmem hostStatus sn
      · rw [if_pos hq] at h
        exact ih hosts log m' log' hn h p hp' hmem
      · rw [if_neg hq] at h
        cases hd : ddel hosts hn0 with
        | none => rw [hd] at h; simp at h
        | some m1 =>
          rw [hd] at h
          exact ih m1 _ m' log' (dNodup_ddel hn hd) h p hp' hmem

/-! ### Group-attachment lemmas -/

theorem attachGroups_keys (l : PyDict (List String)) :
    ∀ m m', attachGroups m l = .ok m' → dkeys m' = dkeys m := by
  induction l with
  | nil =>
    intro m m' h
    simp only [attachGroups, Except.ok.injEq] at h
    rw [h]
  | cons p rest ih =>
    intro m m' h
    obtain ⟨devName, tagList⟩ := p
    rw [attachGroups_cons] at h
    cases hg : dget m devName with
    | none => rw [hg] at h; simp at h
    | some h0 =>
      rw [hg] at h
      rw [ih _ _ h]
      exact dkeys_dsetItem_of_mem m devName _ (mem_dkeys_of_dget (by rw [hg]; simp))

theorem attachGroups_error (l : PyDict (List String)) :
    ∀ m, (∃ p ∈ l, dget m p.1 = none) → ∃ e, attachGroups m l = .error e := by
  induction l with
  | nil =>
    intro m h
    obtain ⟨p, hp, _⟩ := h
    simp at hp
  | cons q rest ih =>
    intro m h
    obtain ⟨devName, tagList⟩ := q
    obtain ⟨p, hp, habs⟩ := h
    rcases List.mem_cons.mp hp with rfl | hp'
    · have habs' : dget m devName = none := habs
      rw [attachGroups_cons, habs']
      exact ⟨_, rfl⟩
    · cases hg : dget m devName with
      | none =>
        rw [attachGroups_cons, hg]
        exact ⟨_, rfl⟩
      | some h0 =>
        rw [attachGroups_cons, hg]
        apply ih
        refine ⟨p, hp', ?_⟩
        have hne : p.1 ≠ devName := by
          intro hh
          rw [hh] at habs
          rw [habs] at hg
          exact Option.noConfusion hg
        rw [dget_dsetItem_ne m devName _ hne]
        exact habs

/-! ### Synthesis inversion lemmas -/

theorem synthesize_ok_inv (registry : List DeviceRecord) (hostStatus : PyDict StatusVal)
    (gt : Option (List String)) (labels : String → List LabelRecord)
    (applied : String → List String) (result : InventoryResult)
    (h : synthesize registry hostStatus gt labels applied = .ok result) :
    ∃ m1 log1 m2 log2,
      passInactive hostStatus (buildHosts registry) [] = .ok (m1, log1) ∧
      passZombie (snToHn registry) hostStatus m1 log1 = .ok (m2, log2) ∧
      dkeys result.hosts = dkeys m2 ∧ result.log = log2 := by
  unfold synthesize at h
  split at h
  · exact absurd h (by simp)
  next hosts1 log1 hA =>
    split at h
    · exact absurd h (by simp)
    next hosts2 log2 hB =>
      refine ⟨hosts1, log1, hosts2, log2, hA, hB, ?_⟩
      split at h
      · have hr := Except.ok.inj h
        rw [← hr]
        exact ⟨rfl, rfl⟩
      · split at h
        · have hr := Except.ok.inj h
          rw [← hr]
          exact ⟨rfl, rfl⟩
        · split at h
          · exact absurd h (by simp)
          next hosts3 hC =>
            have hr := Except.ok.inj h
            rw [← hr]
            exact ⟨attachGroups_keys _ _ _ hC, rfl⟩

theorem synthesize_error_passA (registry : List DeviceRecord) (hostStatus : PyDict StatusVal)
    (gt : Option (List String)) (labels : String → List LabelRecord)
    (applied : String → List String) (e : String)
    (hA : passInactive hostStatus (buildHosts registry) [] = .error e) :
    synthesize registry hostStatus gt labels applied = .error e := by
  unfold synthesize
  rw [hA]

theorem synthesize_error_attach (registry : List DeviceRecord) (hostStatus : PyDict StatusVal)
    (tagList : List String) (labels : String → List LabelRecord)
    (applied : String → List String) (m1 m2 : PyDict HostAttrs) (log1 log2 : List Event)
    (e : String)
    (hA : passInactive hostStatus (buildHosts registry) [] = .ok (m1, log1))
    (hB : passZombie (snToHn registry) hostStatus m1 log1 = .ok (m2, log2))
    (htl : tagList ≠ [])
    (hC : attachGroups m2 (getTags labels applied tagList).2 = .error e) :
    synthesize registry hostStatus (some tagList) labels applied = .error e := by
  unfold synthesize
  split
  next e' hA' => rw [hA] at hA'; exact absurd hA' (by simp)
  next hosts1 log1' hA' =>
    rw [hA] at hA'
    have h12 := Except.ok.inj hA'
    have hh1 : m1 = hosts1 := congrArg Prod.fst h12
    have hh2 : log1 = log1' := congrArg Prod.snd h12
    subst hh1
    subst hh2
    split
    next e' hB' => rw [hB] at hB'; exact absurd hB' (by simp)
    next hosts2 log2' hB' =>
      rw [hB] at hB'
      have h12' := Except.ok.inj hB'
      have hg1 : m2 = hosts2 := congrArg Prod.fst h12'
      have hg2 : log2 = log2' := congrArg Prod.snd h12'
      subst hg1
      subst hg2
      split
      next htn => exact absurd htn (by simp)
      next tagList' hts =>
        have hteq := Option.some.inj hts
        subst hteq
        rw [if_neg htl, hC]

theorem mem_dkeys_iff {V : Type} (m : PyDict V) (k : String) :
    k ∈ dkeys m ↔ dget m k ≠ none := by
  constructor
  · intro h hnone
    exact (dget_eq_none_iff m k).mp hnone h
  · exact mem_dkeys_of_dget

theorem dkeys_buildHosts (registry : List DeviceRecord) (k : String) :
    k ∈ dkeys (buildHosts registry) ↔ k ∈ registry.map DeviceRecord.fqdn := by
  rw [mem_dkeys_iff, buildHosts, dget_dictOf_ne_none]
  simp [List.map_map, Function.comp]

/-! ### Claim C2 -/

/-- Claim C2 counterexample: a status record with a non-active status whose
hostname has no registry entry at all makes the synthesis run fail with a
`KeyError` instead of being skipped and reported. -/
theorem inactive_unknown_host_crashes :
    synthesize [] [("S1", { hostname := "x", status := "down" })] none
      (fun _ => []) (fun _ => []) = .error "KeyError: x" := by decide

/-- Claim C2 (amended): on a successful run every non-active status record's
hostname is removed from the hosts map and the removal is reported as an
event, so such a host never appears in the final result; but when a
non-active record's hostname is absent from the registry-derived hosts map,
the synthesis fails with a `KeyError` rather than skipping the record. -/
theorem inactive_removal_behavior
    (registry : List DeviceRecord) (hostStatus : PyDict StatusVal)
    (gt : Option (List String)) (labels : String → List LabelRecord)
    (applied : String → List String) :
    (∀ result, synthesize registry hostStatus gt labels applied = .ok result →
      ∀ p ∈ hostStatus, p.2.status ≠ "active" →
        dget result.hosts p.2.hostname = none ∧
          Event.removedInactive p.2.hostname ∈ result.log) ∧
    ((∃ p ∈ hostStatus, p.2.status ≠ "active" ∧
        p.2.hostname ∉ registry.map DeviceRecord.fqdn) →
      ∃ e, synthesize registry hostStatus gt labels applied = .error e) := by
  constructor
  · intro result h p hp hact
    obtain ⟨m1, log1, m2, log2, hA, hB, hkeys, hlog⟩ :=
      synthesize_ok_inv _ _ _ _ _ _ h
    have hn0 : dNodup (buildHosts registry) := dNodup_dictOf _
    obtain ⟨hr1, hr2⟩ := passInactive_removes hostStatus _ _ _ _ hn0 hA p hp hact
    obtain ⟨hsB, d, hld⟩ := passZombie_ok_parts _ _ _ _ _ _ hB
    constructor
    · rw [dget_eq_none_iff] at hr1 ⊢
      rw [hkeys]
      intro hmem
      exact hr1 ((hsB.map Prod.fst).subset hmem)
    · rw [hlog, hld]
      exact List.mem_append.mpr (Or.inl hr2)
  · intro hex
    obtain ⟨p, hp, hact, habs⟩ := hex
    have habs0 : dget (buildHosts registry) p.2.hostname = none := by
      rw [dget_eq_none_iff]
      intro hmem
      exact habs ((dkeys_buildHosts registry p.2.hostname).mp hmem)
    obtain ⟨e, hE⟩ := passInactive_error hostStatus (buildHosts registry) []
      ⟨p, hp, hact, habs0⟩
    exact ⟨e, synthesize_error_passA _ _ _ _ _ _ hE⟩

/-- Claim C2 witness: both parts of the amended claim at concrete inputs — an
inactive registered host is removed and reported, and an inactive record
with no registry entry makes the run fail. -/
theorem inactive_removal_behavior_witness :
    (dget (InventoryResult.hosts
        { hosts := [], groups := [], defaults := [("platform", "eos")],
          log := [Event.removedInactive "a"] }) "a" = none ∧
      Event.removedInactive "a" ∈ (InventoryResult.log
        { hosts := [], groups := [], defaults := [("platform", "eos")],
          log := [Event.removedInactive "a"] })) ∧
    (∃ e, synthesize [] [("S1", { hostname := "x", status := "down" })] none
      (fun _ => []) (fun _ => []) = .error e) :=
  ⟨(inactive_removal_behavior [⟨"a", "1.1.1.1", "S1"⟩]
      [("S1", { hostname := "a", status := "down" })] none
      (fun _ => []) (fun _ => [])).1
      { hosts := [], groups := [], defaults := [("platform", "eos")],
        log := [Event.removedInactive "a"] }
      (by decide) ("S1", { hostname := "a", status := "down" }) (by decide) (by decide),
    (inactive_removal_behavior [] [("S1", { hostname := "x", status := "down" })] none
      (fun _ => []) (fun _ => [])).2
      ⟨("S1", { hostname := "x", status := "down" }), by decide, by decide, by decide⟩⟩

/-! ### Claim C3 -/

/-- Claim C3: on a successful synthesis run the final host set is a subset of
the registry snapshot keyed by fqdn, and — with registry serial numbers
unique as the data model requires — every registry device whose serial has
no status record is removed as a zombie and is absent from the final
result. -/
theorem result_subset_registry_and_zombies_absent
    (registry : List DeviceRecord) (hostStatus : PyDict StatusVal)
    (gt : Option (List String)) (labels : String → List LabelRecord)
    (applied : String → List String) (result : InventoryResult)
    (h : synthesize registry hostStatus gt labels applied = .ok result) :
    (∀ k, dget result.hosts k ≠ none → k ∈ registry.map DeviceRecord.fqdn) ∧
    ((registry.map DeviceRecord.serialNumber).Nodup →
      ∀ dev ∈ registry, dget hostStatus dev.serialNumber = none →
        dget result.hosts dev.fqdn = none ∧
          Event.removedZombie dev.fqdn ∈ result.log) := by
  obtain ⟨m1, log1, m2, log2, hA, hB, hkeys, hlog⟩ :=
    synthesize_ok_inv _ _ _ _ _ _ h
  obtain ⟨hsA, dA, hldA⟩ := passInactive_ok_parts _ _ _ _ _ hA
  obtain ⟨hsB, dB, hldB⟩ := passZombie_ok_parts _ _ _ _ _ _ hB
  constructor
  · intro k hk
    have h2 : k ∈ dkeys m2 := by
      rw [← hkeys]
      exact mem_dkeys_of_dget hk
    have h1 : k ∈ dkeys m1 := (hsB.map Prod.fst).subset h2
    have h0 : k ∈ dkeys (buildHosts registry) := (hsA.map Prod.fst).subset h1
    exact (dkeys_buildHosts registry k).mp h0
  · intro hser dev hdev hnost
    have hs2h : snToHn registry = registry.map (fun d => (d.serialNumber, d.fqdn)) := by
      apply dictOf_eq_self
      simpa [List.map_map, Function.comp] using hser
    have hmem : (dev.serialNumber, dev.fqdn) ∈ snToHn registry := by
      rw [hs2h]
      exact List.mem_map.mpr ⟨dev, hdev, rfl⟩
    have hn1 : dNodup m1 := List.Nodup.sublist (hsA.map Prod.fst) (dNodup_dictOf _)
    have hdm : dmem hostStatus dev.serialNumber = false := by
      unfold dmem
      rw [hnost]
      rfl
    obtain ⟨hr1, hr2⟩ := passZombie_removes (snToHn registry) hostStatus m1 log1 m2 log2
      hn1 hB (dev.serialNumber, dev.fqdn) hmem hdm
    constructor
    · rw [dget_eq_none_iff] at hr1 ⊢
      rw [hkeys]
      exact hr1
    · rw [hlog]
      exact hr2

/-- Claim C3 witness: the spec's zombie scenario — registry devices a/S1 and
b/S2 with a status record only for S1 — keeps a (a registry fqdn) and
removes b as a zombie. -/
theorem result_subset_registry_and_zombies_absent_witness :
    ("a" ∈ [⟨"a", "1.1.1.1", "S1"⟩, ⟨"b", "1.1.1.2", "S2"⟩].map DeviceRecord.fqdn) ∧
    (dget (InventoryResult.hosts
        { hosts := [("a", { hostname := "1.1.1.1", groups := none })], groups := [],
          defaults := [("platform", "eos")], log := [Event.removedZombie "b"] }) "b" = none ∧
      Event.removedZombie "b" ∈ (InventoryResult.log
        { hosts := [("a", { hostname := "1.1.1.1", groups := none })], groups := [],
          defaults := [("platform", "eos")], log := [Event.removedZombie "b"] })) :=
  ⟨(result_subset_registry_and_zombies_absent
      [⟨"a", "1.1.1.1", "S1"⟩, ⟨"b", "1.1.1.2", "S2"⟩]
      [("S1", { hostname := "a", status := "active" })] none
      (fun _ => []) (fun _ => [])
      { hosts := [("a", { hostname := "1.1.1.1", groups := none })], groups := [],
        defaults := [("platform", "eos")], log := [Event.removedZombie "b"] }
      (by decide)).1 "a" (by decide),
    (result_subset_registry_and_zombies_absent
      [⟨"a", "1.1.1.1", "S1"⟩, ⟨"b", "1.1.1.2", "S2"⟩]
      [("S1", { hostname := "a", status := "active" })] none
      (fun _ => []) (fun _ => [])
      { hosts := [("a", { hostname := "1.1.1.1", groups := none })], groups := [],
        defaults := [("platform", "eos")], log := [Event.removedZombie "b"] }
      (by decide)).2 (by decide) ⟨"b", "1.1.1.2", "S2"⟩ (by decide) (by decide)⟩

/-! ### Claim C1 -/

/-- Claim C1 counterexample: in the spec's scenario — tag "role" applied to
devices a and b, a active, b a zombie — the synthesis does not succeed with
b absent; it fails with a `KeyError` on b during group attachment. -/
theorem scenario_tagged_zombie_errors :
    synthesize [⟨"a", "1.1.1.1", "S1"⟩, ⟨"b", "1.1.1.2", "S2"⟩]
      [("S1", { hostname := "a", status := "active" })]
      (some ["role"])
      (fun t => if t = "role" then [{ key := "role", netElementCount := 2 }] else [])
      (fun k => if k = "role" then ["a", "b"] else [])
      = .error "KeyError: b" := by decide

/-- Claim C1 (amended): group attachment tolerates no missing hostname —
whenever the tag resolver produces a pair whose hostname is no longer in the
hosts map after the two removal passes (removed as inactive or zombie), the
synthesis fails with a `KeyError` instead of succeeding with that host
absent. -/
theorem attach_missing_host_fails_synthesize
    (registry : List DeviceRecord) (hostStatus : PyDict StatusVal)
    (tagList : List String) (labels : String → List LabelRecord)
    (applied : String → List String) (m1 m2 : PyDict HostAttrs) (log1 log2 : List Event)
    (hA : passInactive hostStatus (buildHosts registry) [] = .ok (m1, log1))
    (hB : passZombie (snToHn registry) hostStatus m1 log1 = .ok (m2, log2))
    (htl : tagList ≠ [])
    (hex : ∃ p ∈ (getTags labels applied tagList).2, dget m2 p.1 = none) :
    ∃ e, synthesize registry hostStatus (some tagList) labels applied = .error e := by
  obtain ⟨e, hC⟩ := attachGroups_error _ m2 hex
  exact ⟨e, synthesize_error_attach registry hostStatus tagList labels applied
    m1 m2 log1 log2 e hA hB htl hC⟩

/-- Claim C1 witness: the amended claim instantiated at the spec's scenario,
where the tag resolver returns the zombie hostname b after b was removed. -/
theorem attach_missing_host_fails_synthesize_witness :
    ∃ e, synthesize [⟨"a", "1.1.1.1", "S1"⟩, ⟨"b", "1.1.1.2", "S2"⟩]
      [("S1", { hostname := "a", status := "active" })]
      (some ["role"])
      (fun t => if t = "role" then [{ key := "role", netElementCount := 2 }] else [])
      (fun k => if k = "role" then ["a", "b"] else []) = .error e :=
  attach_missing_host_fails_synthesize
    [⟨"a", "1.1.1.1", "S1"⟩, ⟨"b", "1.1.1.2", "S2"⟩]
    [("S1", { hostname := "a", status := "active" })]
    ["role"]
    (fun t => if t = "role" then [{ key := "role", netElementCount := 2 }] else [])
    (fun k => if k = "role" then ["a", "b"] else [])
    [("a", { hostname := "1.1.1.1", groups := none }),
      ("b", { hostname := "1.1.1.2", groups := none })]
    [("a", { hostname := "1.1.1.1", groups := none })]
    [] [Event.removedZombie "b"]
    (by decide) (by decide) (by decide)
    ⟨("b", ["role"]), by decide, by decide⟩

/-! ### Claim C9 -/

theorem lastWins_cons {α : Type} (e : String × NotifItem α)
    (rest : List (String × NotifItem α)) (id : String) :
    lastWins (e :: rest) id =
      match lastWins rest id with
      | some v => some v
      | none => if e.1 = id then some e.2 else none := rfl

theorem extracto_eq_foldl {α : Type} (nl : List (NotifRecord α)) (ex : Extract) :
    ∀ m, nl.foldl
        (fun items notif =>
          notif.updates.foldl (fun items e => dsetItem items e.1 (extractField ex e.2)) items) m =
      (allUpdatePairs nl).foldl (fun items e => dsetItem items e.1 (extractField ex e.2)) m := by
  induction nl with
  | nil => intro m; rfl
  | cons n rest ih =>
    intro m
    rw [List.foldl_cons, ih]
    show _ = (n.updates ++ allUpdatePairs rest).foldl _ m
    rw [List.foldl_append]

theorem dget_foldl_extract {α : Type} (pairs : List (String × NotifItem α)) (ex : Extract) :
    ∀ m id, dget (pairs.foldl (fun items e => dsetItem items e.1 (extractField ex e.2)) m) id =
      match lastWins pairs id with
      | some it => some (extractField ex it)
      | none => dget m id := by
  induction pairs with
  | nil => intro m id; rfl
  | cons e rest ih =>
    intro m id
    rw [List.foldl_cons, ih, lastWins_cons]
    cases hr : lastWins rest id with
    | some v => rfl
    | none =>
      by_cases h : e.1 = id
      · subst h
        rw [if_pos rfl]
        show dget (dsetItem m e.1 (extractField ex e.2)) e.1 = some (extractField ex e.2)
        exact dget_dsetItem_self m e.1 _
      · rw [if_neg h]
        show dget (dsetItem m e.1 (extractField ex e.2)) id = dget m id
        exact dget_dsetItem_ne m e.1 _ (fun hh => h hh.symm)

/-- Claim C9: the general notification decoder returns exactly the
last-write-wins mapping over the batch-ordered flattened update pairs —
for every entity id, its decoded value is the chosen field of the last
pair carrying that id, so later records overwrite earlier ones. -/
theorem extracto_last_write_wins {α : Type} (notifList : List (NotifRecord α))
    (ex : Extract) (id : String) :
    dget (extractoNotifications notifList ex) id =
      (lastWins (allUpdatePairs notifList) id).map (extractField ex) := by
  unfold extractoNotifications
  rw [extracto_eq_foldl, dget_foldl_extract]
  cases hr : lastWins (allUpdatePairs notifList) id with
  | some v => rfl
  | none => rfl

/-! ### Claim C10 -/

theorem getActiveDevicesGo_cons {α : Type} (r : NotifRecord α)
    (rest : List (NotifRecord α)) (res : PyDict α) :
    getActiveDevicesGo (r :: rest) res =
      match firstTruthyKey r.updates with
      | none => .error "KeyError: None"
      | some snKey =>
        match dget r.updates snKey with
        | some it => getActiveDevicesGo rest (dsetItem res snKey it.value)
        | none => .error ("KeyError: " ++ snKey) := rfl

theorem firstTruthyKey_cons {α : Type} (k0 : String) (v0 : α) (rest : PyDict α) :
    firstTruthyKey ((k0, v0) :: rest) =
      if k0 = "" then firstTruthyKey rest else some k0 := rfl

theorem firstTruthyKey_ne_empty {α : Type} (l : PyDict α) :
    ∀ k, firstTruthyKey l = some k → k ≠ "" := by
  induction l with
  | nil => intro k h; simp [firstTruthyKey] at h
  | cons e rest ih =>
    intro k h
    obtain ⟨k0, v0⟩ := e
    by_cases h0 : k0 = ""
    · rw [firstTruthyKey_cons, if_pos h0] at h
      exact ih k h
    · rw [firstTruthyKey_cons, if_neg h0] at h
      have := Option.some.inj h
      rw [← this]
      exact h0

theorem dget_of_firstTruthyKey {α : Type} (l : PyDict α) :
    ∀ k, firstTruthyKey l = some k → ∃ it, dget l k = some it := by
  induction l with
  | nil => intro k h; simp [firstTruthyKey] at h
  | cons e rest ih =>
    intro k h
    obtain ⟨k0, v0⟩ := e
    by_cases h0 : k0 = ""
    · rw [firstTruthyKey_cons, if_pos h0] at h
      obtain ⟨it, hit⟩ := ih k h
      have hk : k ≠ "" := firstTruthyKey_ne_empty rest k h
      refine ⟨it, ?_⟩
      rw [dget_cons, if_neg ?_, hit]
      rw [h0]
      exact fun hh => hk hh.symm
    · rw [firstTruthyKey_cons, if_neg h0] at h
      have hk := Option.some.inj h
      subst hk
      exact ⟨v0, by rw [dget_cons, if_pos rfl]⟩

/-- Claim C10 counterexample: when a record's first updates entry has an
empty serial-number key, `get_active_devices` does not keep that first
entry — it keeps the second one, so entries after the first are not all
dropped. -/
theorem get_active_devices_skips_empty_key :
    getActiveDevices (α := String)
      [⟨[("", { value := "vA", key := "kA" }), ("S2", { value := "vB", key := "kB" })]⟩]
      = .ok [("S2", "vB")] := by decide

/-- Claim C10 (amended): from each notification record the device-status
decode consumes only the first entry with a truthy (non-empty) key — the
result is unchanged when every record is reduced to just that entry, so
all other entries of each record, before or after it, are silently
dropped. -/
theorem get_active_devices_first_truthy_only {α : Type} (nl : List (NotifRecord α)) :
    getActiveDevices nl = getActiveDevices (nl.map keepFirstTruthy) := by
  suffices h : ∀ res, getActiveDevicesGo nl res = getActiveDevicesGo (nl.map keepFirstTruthy) res
    from h []
  induction nl with
  | nil => intro res; rfl
  | cons r rest ih =>
    intro res
    rw [List.map_cons, getActiveDevicesGo_cons, getActiveDevicesGo_cons]
    cases hf : firstTruthyKey r.updates with
    | none =>
      have hkeep : keepFirstTruthy r = ⟨[]⟩ := by unfold keepFirstTruthy; rw [hf]
      rw [hkeep]
      rfl
    | some k =>
      obtain ⟨it, hit⟩ := dget_of_firstTruthyKey r.updates k hf
      have hk : k ≠ "" := firstTruthyKey_ne_empty r.updates k hf
      have hkeep : keepFirstTruthy r = ⟨[(k, it)]⟩ := by
        unfold keepFirstTruthy
        rw [hf]
        show (match dget r.updates k with
          | some it => (⟨[(k, it)]⟩ : NotifRecord α)
          | none => (⟨[]⟩ : NotifRecord α)) = (⟨[(k, it)]⟩ : NotifRecord α)
        rw [hit]
      rw [hkeep]
      show (match dget r.updates k with
        | some it => getActiveDevicesGo rest (dsetItem res k it.value)
        | none => Except.error ("KeyError: " ++ k)) =
        match firstTruthyKey ((⟨[(k, it)]⟩ : NotifRecord α).updates) with
        | none => Except.error "KeyError: None"
        | some snKey =>
          match dget ((⟨[(k, it)]⟩ : NotifRecord α).updates) snKey with
          | some it2 => getActiveDevicesGo (List.map keepFirstTruthy rest) (dsetItem res snKey it2.value)
          | none => Except.error ("KeyError: " ++ snKey)
      rw [hit]
      have h1 : firstTruthyKey ((⟨[(k, it)]⟩ : NotifRecord α).updates) = some k := by
        show firstTruthyKey [(k, it)] = some k
        rw [firstTruthyKey_cons, if_neg hk]
      rw [h1]
      show getActiveDevicesGo rest (dsetItem res k it.value) =
        match dget ((⟨[(k, it)]⟩ : NotifRecord α).updates) k with
        | some it2 => getActiveDevicesGo (List.map keepFirstTruthy rest) (dsetItem res k it2.value)
        | none => Except.error ("KeyError: " ++ k)
      have h2 : dget ((⟨[(k, it)]⟩ : NotifRecord α).updates) k = some it := by
        show dget [(k, it)] k = some it
        rw [dget_cons, if_pos rfl]
      rw [h2]
      exact ih (dsetItem res k it.value)

/-! ### Claims C5 and C6 -/

theorem pyPartitionAux_cons (c : Char) (l : List Char) (sep : Char) :
    pyPartitionAux (c :: l) sep =
      if c = sep then some ([], l)
      else (pyPartitionAux l sep).map (fun p => (c :: p.1, p.2)) := rfl

theorem pyPartitionAux_split (sep : Char) (rest : List Char) :
    ∀ pre, sep ∉ pre → pyPartitionAux (pre ++ sep :: rest) sep = some (pre, rest) := by
  intro pre
  induction pre with
  | nil =>
    intro _
    show pyPartitionAux (sep :: rest) sep = some ([], rest)
    rw [pyPartitionAux_cons, if_pos rfl]
  | cons c cs ih =>
    intro h
    rw [List.mem_cons, not_or] at h
    show pyPartitionAux (c :: (cs ++ sep :: rest)) sep = some (c :: cs, rest)
    rw [pyPartitionAux_cons, if_neg (fun hh => h.1 hh.symm), ih h.2]
    rfl

theorem resolveAddress_shortcut (host : String) (tok : Char) (rest : List Char) (base : String)
    (hne : ¬tok = '/')
    (htok : shortcutLookup (String.mk ['$', tok]) = some base) :
    resolveAddress host (String.mk ('$' :: tok :: '/' :: rest)) =
      .ok (host ++ base ++ ("/" ++ String.mk rest)) := by
  have hpart : pyPartition (String.mk ('$' :: tok :: '/' :: rest)) '/' =
      (String.mk ['$', tok], String.mk rest) := by
    unfold pyPartition
    rw [show (String.mk ('$' :: tok :: '/' :: rest)).data = ['$', tok] ++ '/' :: rest from rfl]
    rw [pyPartitionAux_split '/' rest ['$', tok] ?hnm]
    case hnm =>
      intro hmem
      rcases List.mem_cons.mp hmem with h1 | h1
      · exact absurd h1 (by decide)
      · rcases List.mem_cons.mp h1 with h2 | h2
        · exact hne h2.symm
        · simp at h2
  unfold resolveAddress
  rw [if_pos (show startsWithDollar (String.mk ('$' :: tok :: '/' :: rest)) = true from rfl)]
  rw [hpart]
  show (match shortcutLookup (String.mk ['$', tok]) with
    | none => (Except.error ("KeyError: " ++ String.mk ['$', tok]) : Except String String)
    | some apiBase => .ok (host ++ apiBase ++ ("/" ++ String.mk rest)))
    = .ok (host ++ base ++ ("/" ++ String.mk rest))
  rw [htok]

/-- Claim C5: address resolution follows the fixed shortcut mapping exactly —
each recognized shortcut followed by a slash substitutes its base path and
strips the shortcut, any address not beginning with a dollar token goes
under the default web base, and the spec's two concrete examples resolve
accordingly. -/
theorem resolve_shortcut_mapping (host : String) (rest : List Char) (addr : String)
    (hnd : startsWithDollar addr = false) :
    (resolveAddress host (String.mk ('$' :: 'a' :: '/' :: rest)) =
      .ok (host ++ "/api/v1/rest/analytics" ++ ("/" ++ String.mk rest))) ∧
    (resolveAddress host (String.mk ('$' :: 'r' :: '/' :: rest)) =
      .ok (host ++ "/api/v1/rest" ++ ("/" ++ String.mk rest))) ∧
    (resolveAddress host (String.mk ('$' :: 'c' :: '/' :: rest)) =
      .ok (host ++ "/cvpservice" ++ ("/" ++ String.mk rest))) ∧
    (resolveAddress host (String.mk ('$' :: 'n' :: '/' :: rest)) =
      .ok (host ++ "/api/v1/rest/analytics/network/v1" ++ ("/" ++ String.mk rest))) ∧
    (resolveAddress host addr = .ok (host ++ "/web" ++ addr)) ∧
    (resolveAddress "https://cvp" "$a/DatasetInfo/Devices" =
      .ok "https://cvp/api/v1/rest/analytics/DatasetInfo/Devices") ∧
    (resolveAddress "https://cvp" "/inventory/devices" =
      .ok "https://cvp/web/inventory/devices") := by
  refine ⟨resolveAddress_shortcut host 'a' rest _ (by decide) (by decide),
    resolveAddress_shortcut host 'r' rest _ (by decide) (by decide),
    resolveAddress_shortcut host 'c' rest _ (by decide) (by decide),
    resolveAddress_shortcut host 'n' rest _ (by decide) (by decide),
    ?_, by decide, by decide⟩
  unfold resolveAddress
  rw [if_neg (by simp [hnd])]

/-- Claim C5 witness: the default-base arm applied at the spec's concrete
registry address, with the non-dollar hypothesis discharged by
evaluation. -/
theorem resolve_shortcut_mapping_witness :
    startsWithDollar "/inventory/devices" = false ∧
    resolveAddress "https://cvp" "/inventory/devices" =
      .ok ("https://cvp" ++ "/web" ++ "/inventory/devices") :=
  ⟨by decide,
    ((resolve_shortcut_mapping "https://cvp" [] "/inventory/devices" (by decide)).2.2.2.2).1⟩

/-- Claim C6: every address beginning with a dollar token whose shortcut is
not recognized makes resolution fail with the lookup error rather than
silently falling back to the default base. -/
theorem resolve_unknown_shortcut_errors (host addr : String)
    (h1 : startsWithDollar addr = true)
    (h2 : shortcutLookup (pyPartition addr '/').1 = none) :
    resolveAddress host addr = .error ("KeyError: " ++ (pyPartition addr '/').1) := by
  unfold resolveAddress
  rw [if_pos h1, h2]

/-- Claim C6 witness: the unknown-shortcut theorem applied at the spec's
concrete example address. -/
theorem resolve_unknown_shortcut_errors_witness :
    startsWithDollar "$x/foo" = true ∧
    shortcutLookup (pyPartition "$x/foo" '/').1 = none ∧
    resolveAddress "https://cvp" "$x/foo" =
      .error ("KeyError: " ++ (pyPartition "$x/foo" '/').1) :=
  ⟨by decide, by decide,
    resolve_unknown_shortcut_errors "https://cvp" "$x/foo" (by decide) (by decide)⟩

/-! ### Claim C7 -/

/-- Claim C7 counterexample: a login response carrying an errorCode field in
a success-status body is not detected — the handshake proceeds and returns
the version instead of failing with an authentication error. -/
theorem login_ignores_error_code_field :
    cvpLogin { statusCode := 200, errorCode := some "Authentication failed", version := none }
      { statusCode := 200, errorCode := none, version := some "2020.1.1" } =
      .ok "2020.1.1" := by decide

/-- Claim C7 (amended): login fails when the login response has a non-success
HTTP status, with the error carrying the status code (a body errorCode
field is never inspected, so it cannot fail the handshake); on login
success the version call is made at once, a non-success status there fails
the handshake too, and otherwise the response's version string is the
result. -/
theorem login_status_and_version_behavior (r1 r2 : HttpResponse) (v : String) :
    (400 ≤ r1.statusCode →
      cvpLogin r1 r2 = .error ("HTTPError: " ++ toString r1.statusCode)) ∧
    (r1.statusCode < 400 → 400 ≤ r2.statusCode →
      cvpLogin r1 r2 = .error ("HTTPError: " ++ toString r2.statusCode)) ∧
    (r1.statusCode < 400 → r2.statusCode < 400 → r2.version = some v →
      cvpLogin r1 r2 = .ok v) ∧
    cvpLogin r1 r2 = cvpLogin { r1 with errorCode := none } { r2 with errorCode := none } := by
  refine ⟨?_, ?_, ?_, rfl⟩
  · intro h
    have hr1 : raiseForStatus r1 = .error ("HTTPError: " ++ toString r1.statusCode) := by
      unfold raiseForStatus
      rw [if_pos h]
    unfold cvpLogin
    simp only [hr1]
  · intro h1 h2
    have hr1 : raiseForStatus r1 = .ok () := by
      unfold raiseForStatus
      rw [if_neg (Nat.not_le.mpr h1)]
    have hr2 : raiseForStatus r2 = .error ("HTTPError: " ++ toString r2.statusCode) := by
      unfold raiseForStatus
      rw [if_pos h2]
    unfold cvpLogin
    simp only [hr1, hr2]
  · intro h1 h2 hv
    have hr1 : raiseForStatus r1 = .ok () := by
      unfold raiseForStatus
      rw [if_neg (Nat.not_le.mpr h1)]
    have hr2 : raiseForStatus r2 = .ok () := by
      unfold raiseForStatus
      rw [if_neg (Nat.not_le.mpr h2)]
    unfold cvpLogin
    simp only [hr1, hr2, hv]

/-- Claim C7 witness: the amended behavior at concrete responses — a 401
login fails with the status error, and a clean handshake returns the
version string. -/
theorem login_status_and_version_behavior_witness :
    cvpLogin { statusCode := 401, errorCode := none, version := none }
      { statusCode := 200, errorCode := none, version := some "2020.1.1" } =
      .error ("HTTPError: " ++ toString (401 : Nat)) ∧
    cvpLogin { statusCode := 200, errorCode := none, version := none }
      { statusCode := 200, errorCode := none, version := some "2020.1.1" } =
      .ok "2020.1.1" :=
  ⟨(login_status_and_version_behavior
      { statusCode := 401, errorCode := none, version := none }
      { statusCode := 200, errorCode := none, version := some "2020.1.1" } "2020.1.1").1
      (by decide),
    (login_status_and_version_behavior
      { statusCode := 200, errorCode := none, version := none }
      { statusCode := 200, errorCode := none, version := some "2020.1.1" } "2020.1.1").2.2.1
      (by decide) (by decide) (by decide)⟩

/-! ### Claim C8 -/

theorem firstTruthyEnv_one (env : String → Option String) (n1 : String) :
    firstTruthyEnv env [n1] = pyTruthyStr (env n1) := by
  unfold firstTruthyEnv
  cases hc : pyTruthyStr (env n1) with
  | some v => rfl
  | none => rfl

theorem firstTruthyEnv_two (env : String → Option String) (n1 n2 : String) :
    firstTruthyEnv env [n1, n2] = (pyTruthyStr (env n1)).or (pyTruthyStr (env n2)) := by
  unfold firstTruthyEnv
  cases hc : pyTruthyStr (env n1) with
  | some v => rfl
  | none =>
    rw [firstTruthyEnv_one]
    rfl

theorem requiredVar_eq (env : String → Option String) (names : List String)
    (name : String) (prov : Option String) :
    requiredVar env names name prov =
      match (pyTruthyStr prov).or (firstTruthyEnv env names) with
      | some v => .ok v
      | none => .error ("Missing required value for parameter: " ++ name) := by
  unfold requiredVar
  cases hc : pyTruthyStr prov with
  | some v => rfl
  | none =>
    cases hf : firstTruthyEnv env names with
    | some v => rfl
    | none => rfl

/-- Claim C8: each of server, username and password is resolved from the
explicit parameter first and then from the environment fallbacks in the
fixed order; when all three resolve the session config is built from
exactly those values, when any is missing construction fails, and that
failure is independent of any network response — it happens before any
network call. -/
theorem session_credential_resolution (env : String → Option String)
    (s u p : Option String) :
    (∀ a b c,
      (pyTruthyStr s).or (pyTruthyStr (env "CVP_SERVER")) = some a →
      (pyTruthyStr u).or ((pyTruthyStr (env "CVP_USER")).or (pyTruthyStr (env "USER"))) = some b →
      (pyTruthyStr p).or
        ((pyTruthyStr (env "CVP_PASSWORD")).or (pyTruthyStr (env "PASSWORD"))) = some c →
      cvpSessionInit env s u p =
        .ok { hostUrl := "https://" ++ a, userId := b, password := c }) ∧
    (((pyTruthyStr s).or (pyTruthyStr (env "CVP_SERVER")) = none ∨
      (pyTruthyStr u).or ((pyTruthyStr (env "CVP_USER")).or (pyTruthyStr (env "USER"))) = none ∨
      (pyTruthyStr p).or
        ((pyTruthyStr (env "CVP_PASSWORD")).or (pyTruthyStr (env "PASSWORD"))) = none) →
      ∃ e, cvpSessionInit env s u p = .error e) ∧
    (∀ e r1 r2, cvpSessionInit env s u p = .error e →
      cvpConnect env s u p r1 r2 = .error e) := by
  refine ⟨?_, ?_, ?_⟩
  · intro a b c ha hb hc
    have h1 : requiredVar env ["CVP_SERVER"] "server" s = .ok a := by
      rw [requiredVar_eq, firstTruthyEnv_one, ha]
    have h2 : requiredVar env ["CVP_USER", "USER"] "username" u = .ok b := by
      rw [requiredVar_eq, firstTruthyEnv_two, hb]
    have h3 : requiredVar env ["CVP_PASSWORD", "PASSWORD"] "password" p = .ok c := by
      rw [requiredVar_eq, firstTruthyEnv_two, hc]
    unfold cvpSessionInit
    simp only [h1, h2, h3]
  · intro hmiss
    rcases hmiss with hs | hu | hp
    · have h1 : requiredVar env ["CVP_SERVER"] "server" s =
          .error ("Missing required value for parameter: " ++ "server") := by
        rw [requiredVar_eq, firstTruthyEnv_one, hs]
      exact ⟨"Missing required value for parameter: " ++ "server",
        by unfold cvpSessionInit; simp only [h1]⟩
    · cases hsv : requiredVar env ["CVP_SERVER"] "server" s with
      | error e => exact ⟨e, by unfold cvpSessionInit; simp only [hsv]⟩
      | ok sv =>
        have h2 : requiredVar env ["CVP_USER", "USER"] "username" u =
            .error ("Missing required value for parameter: " ++ "username") := by
          rw [requiredVar_eq, firstTruthyEnv_two, hu]
        exact ⟨"Missing required value for parameter: " ++ "username",
          by unfold cvpSessionInit; simp only [hsv, h2]⟩
    · cases hsv : requiredVar env ["CVP_SERVER"] "server" s with
      | error e => exact ⟨e, by unfold cvpSessionInit; simp only [hsv]⟩
      | ok sv =>
        cases huv : requiredVar env ["CVP_USER", "USER"] "username" u with
        | error e => exact ⟨e, by unfold cvpSessionInit; simp only [hsv, huv]⟩
        | ok uv =>
          have h3 : requiredVar env ["CVP_PASSWORD", "PASSWORD"] "password" p =
              .error ("Missing required value for parameter: " ++ "password") := by
            rw [requiredVar_eq, firstTruthyEnv_two, hp]
          exact ⟨"Missing required value for parameter: " ++ "password",
            by unfold cvpSessionInit; simp only [hsv, huv, h3]⟩
  · intro e r1 r2 he
    unfold cvpConnect
    simp only [he]

/-- Claim C8 witness: with the username supplied only through the USER
fallback and the other two values supplied explicitly, construction
succeeds with exactly the cascaded values. -/
theorem session_credential_resolution_witness :
    cvpSessionInit (fun n => if n = "USER" then some "bob" else none)
      (some "cvp1") none (some "pw") =
      .ok { hostUrl := "https://" ++ "cvp1", userId := "bob", password := "pw" } :=
  (session_credential_resolution (fun n => if n = "USER" then some "bob" else none)
    (some "cvp1") none (some "pw")).1 "cvp1" "bob" "pw"
    (by decide) (by decide) (by decide)

/-! ### Claim C4 -/

theorem dFilterOut_nil {V : Type} (m : PyDict V) : dFilterOut m [] = m := by
  induction m with
  | nil => rfl
  | cons e rest ih =>
    show (if e.1 ∈ ([] : List String) then dFilterOut rest [] else e :: dFilterOut rest []) = e :: rest
    rw [if_neg (by simp), ih]

theorem dFilterOut_cons {V : Type} (e : String × V) (rest : PyDict V) (ks : List String) :
    dFilterOut (e :: rest) ks =
      if e.1 ∈ ks then dFilterOut rest ks else e :: dFilterOut rest ks := rfl

theorem dFilterOut_sublist {V : Type} (m : PyDict V) (ks : List String) :
    (dFilterOut m ks).Sublist m := by
  induction m with
  | nil => exact List.Sublist.refl _
  | cons e rest ih =>
    rw [dFilterOut_cons]
    by_cases h : e.1 ∈ ks
    · rw [if_pos h]
      exact ih.trans (List.sublist_cons_self _ _)
    · rw [if_neg h]
      exact ih.cons₂ e

theorem dget_dFilterOut_not_mem {V : Type} (m : PyDict V) (ks : List String)
    {k : String} (hk : k ∉ ks) : dget (dFilterOut m ks) k = dget m k := by
  induction m with
  | nil => rfl
  | cons e rest ih =>
    obtain ⟨k0, v0⟩ := e
    rw [dFilterOut_cons]
    by_cases h : k0 ∈ ks
    · rw [if_pos h, ih, dget_cons, if_neg ?_]
      intro hh
      exact hk (hh ▸ h)
    · rw [if_neg h, dget_cons, dget_cons, ih]

theorem dFilterOut_key_absent {V : Type} (m : PyDict V) (k : String) (ks : List String)
    (h : k ∉ dkeys m) : dFilterOut m (k :: ks) = dFilterOut m ks := by
  induction m with
  | nil => rfl
  | cons e rest ih =>
    obtain ⟨k0, v0⟩ := e
    rw [dkeys_cons, List.mem_cons, not_or] at h
    rw [dFilterOut_cons, dFilterOut_cons]
    by_cases h0 : k0 ∈ ks
    · rw [if_pos (List.mem_cons_of_mem _ h0), if_pos h0, ih h.2]
    · rw [if_neg ?_, if_neg h0, ih h.2]
      rw [List.mem_cons, not_or]
      exact ⟨fun hh => h.1 hh.symm, h0⟩

theorem dFilterOut_ddel {V : Type} (m : PyDict V) (k : String) (ks : List String) :
    dNodup m → ∀ m1, ddel m k = some m1 → dFilterOut m (k :: ks) = dFilterOut m1 ks := by
  induction m with
  | nil => intro _ m1 h; simp [ddel] at h
  | cons e rest ih =>
    intro hn m1 h
    obtain ⟨k0, v0⟩ := e
    unfold dNodup at hn
    rw [dkeys_cons, List.nodup_cons] at hn
    rw [ddel_cons] at h
    by_cases h0 : k0 = k
    · rw [if_pos h0] at h
      have heq := Option.some.inj h
      subst heq
      rw [dFilterOut_cons, if_pos (by rw [h0]; exact List.mem_cons_self _ _)]
      subst h0
      exact dFilterOut_key_absent rest k0 ks hn.1
    · rw [if_neg h0] at h
      cases hd : ddel rest k with
      | none => rw [hd] at h; simp at h
      | some m2 =>
        rw [hd] at h
        have heq := Option.some.inj h
        subst heq
        rw [dFilterOut_cons, dFilterOut_cons]
        by_cases hks : k0 ∈ ks
        · rw [if_pos (List.mem_cons_of_mem _ hks), if_pos hks, ih hn.2 m2 hd]
        · rw [if_neg ?_, if_neg hks, ih hn.2 m2 hd]
          rw [List.mem_cons, not_or]
          exact ⟨h0, hks⟩

theorem dFilterOut_comm {V : Type} (m : PyDict V) (ks1 ks2 : List String) :
    dFilterOut (dFilterOut m ks1) ks2 = dFilterOut (dFilterOut m ks2) ks1 := by
  induction m with
  | nil => rfl
  | cons e rest ih =>
    rw [dFilterOut_cons, dFilterOut_cons]
    by_cases h1 : e.1 ∈ ks1 <;> by_cases h2 : e.1 ∈ ks2
    · rw [if_pos h1, if_pos h2, ih]
    · rw [if_pos h1, if_neg h2, dFilterOut_cons, if_pos h1, ih]
    · rw [if_neg h1, if_pos h2, dFilterOut_cons, if_pos h2, ih]
    · rw [if_neg h1, if_neg h2, dFilterOut_cons, dFilterOut_cons, if_neg h2, if_neg h1, ih]

theorem delKeysA_cons (sn : String) (sv : StatusVal) (rest : PyDict StatusVal) :
    delKeysA ((sn, sv) :: rest) =
      if sv.status = "active" then delKeysA rest else sv.hostname :: delKeysA rest := rfl

theorem delKeysB_cons (hostStatus : PyDict StatusVal) (sn hn : String) (rest : PyDict String) :
    delKeysB hostStatus ((sn, hn) :: rest) =
      if dmem hostStatus sn then delKeysB hostStatus rest
      else hn :: delKeysB hostStatus rest := rfl

theorem mem_delKeysA (st : PyDict StatusVal) (k : String) :
    k ∈ delKeysA st ↔ ∃ p ∈ st, ¬p.2.status = "active" ∧ k = p.2.hostname := by
  induction st with
  | nil => simp [delKeysA]
  | cons q rest ih =>
    obtain ⟨sn, sv⟩ := q
    rw [delKeysA_cons]
    by_cases hact : sv.status = "active"
    · rw [if_pos hact, ih]
      constructor
      · rintro ⟨p, hp, hna, hk⟩
        exact ⟨p, List.mem_cons_of_mem _ hp, hna, hk⟩
      · rintro ⟨p, hp, hna, hk⟩
        rcases List.mem_cons.mp hp with rfl | hp'
        · exact absurd hact hna
        · exact ⟨p, hp', hna, hk⟩
    · rw [if_neg hact, List.mem_cons, ih]
      constructor
      · rintro (rfl | ⟨p, hp, hna, hk⟩)
        · exact ⟨(sn, sv), List.mem_cons_self _ _, hact, rfl⟩
        · exact ⟨p, List.mem_cons_of_mem _ hp, hna, hk⟩
      · rintro ⟨p, hp, hna, hk⟩
        rcases List.mem_cons.mp hp with rfl | hp'
        · exact Or.inl hk
        · exact Or.inr ⟨p, hp', hna, hk⟩

theorem mem_delKeysB (hostStatus : PyDict StatusVal) (s2h : PyDict String) (k : String) :
    k ∈ delKeysB hostStatus s2h ↔
      ∃ q ∈ s2h, dmem hostStatus q.1 = false ∧ k = q.2 := by
  induction s2h with
  | nil => simp [delKeysB]
  | cons q rest ih =>
    obtain ⟨sn, hn⟩ := q
    rw [delKeysB_cons]
    by_cases hm : dmem hostStatus sn
    · rw [if_pos hm, ih]
      constructor
      · rintro ⟨p, hp, hf, hk⟩
        exact ⟨p, List.mem_cons_of_mem _ hp, hf, hk⟩
      · rintro ⟨p, hp, hf, hk⟩
        rcases List.mem_cons.mp hp with rfl | hp'
        · rw [hm] at hf
          cases hf
        · exact ⟨p, hp', hf, hk⟩
    · rw [if_neg hm, List.mem_cons, ih]
      constructor
      · rintro (rfl | ⟨p, hp, hf, hk⟩)
        · exact ⟨(sn, k), List.mem_cons_self _ _, Bool.eq_false_iff.mpr hm, rfl⟩
        · exact ⟨p, List.mem_cons_of_mem _ hp, hf, hk⟩
      · rintro ⟨p, hp, hf, hk⟩
        rcases List.mem_cons.mp hp with rfl | hp'
        · exact Or.inl hk
        · exact Or.inr ⟨p, hp', hf, hk⟩

theorem passInactive_run (st : PyDict StatusVal) :
    ∀ hosts log, dNodup hosts → (delKeysA st).Nodup →
      (∀ k ∈ delKeysA st, k ∈ dkeys hosts) →
      passInactive st hosts log =
        .ok (dFilterOut hosts (delKeysA st),
          log ++ (delKeysA st).map Event.removedInactive) := by
  induction st with
  | nil =>
    intro hosts log _ _ _
    rw [show delKeysA [] = [] from rfl, dFilterOut_nil]
    simp [passInactive]
  | cons q rest ih =>
    intro hosts log hn hnd hmem
    obtain ⟨sn, sv⟩ := q
    rw [delKeysA_cons] at hnd hmem ⊢
    by_cases hact : sv.status = "active"
    · rw [if_pos hact] at hnd hmem ⊢
      rw [passInactive_cons, if_pos hact]
      exact ih hosts log hn hnd hmem
    · rw [if_neg hact] at hnd hmem ⊢
      rw [passInactive_cons, if_neg hact]
      have hmemh : sv.hostname ∈ dkeys hosts := hmem sv.hostname (List.mem_cons_self _ _)
      have hget : dget hosts sv.hostname ≠ none := (mem_dkeys_iff hosts sv.hostname).mp hmemh
      obtain ⟨m1, hd⟩ := ddel_isSome_of_mem hget
      rw [hd]
      rw [List.nodup_cons] at hnd
      have hmem1 : ∀ k ∈ delKeysA rest, k ∈ dkeys m1 := by
        intro k hk
        have hne : k ≠ sv.hostname := fun hh => hnd.1 (hh ▸ hk)
        rw [mem_dkeys_iff, dget_ddel_ne hosts sv.hostname m1 hd k hne]
        exact (mem_dkeys_iff hosts k).mp (hmem k (List.mem_cons_of_mem _ hk))
      show passInactive rest m1 (log ++ [Event.removedInactive sv.hostname]) = _
      rw [ih m1 (log ++ [Event.removedInactive sv.hostname]) (dNodup_ddel hn hd) hnd.2 hmem1]
      rw [dFilterOut_ddel hosts sv.hostname (delKeysA rest) hn m1 hd]
      rw [List.map_cons, List.append_assoc]
      rfl

theorem passZombie_run (s2h : PyDict String) (hostStatus : PyDict StatusVal) :
    ∀ hosts log, dNodup hosts → (delKeysB hostStatus s2h).Nodup →
      (∀ k ∈ delKeysB hostStatus s2h, k ∈ dkeys hosts) →
      passZombie s2h hostStatus hosts log =
        .ok (dFilterOut hosts (delKeysB hostStatus s2h),
          log ++ (delKeysB hostStatus s2h).map Event.removedZombie) := by
  induction s2h with
  | nil =>
    intro hosts log _ _ _
    rw [show delKeysB hostStatus [] = [] from rfl, dFilterOut_nil]
    simp [passZombie]
  | cons q rest ih =>
    intro hosts log hn hnd hmem
    obtain ⟨sn, hn0⟩ := q
    rw [delKeysB_cons] at hnd hmem ⊢
    by_cases hm : dmem hostStatus sn
    · rw [if_pos hm] at hnd hmem ⊢
      rw [passZombie_cons, if_pos hm]
      exact ih hosts log hn hnd hmem
    · rw [if_neg hm] at hnd hmem ⊢
      rw [passZombie_cons, if_neg hm]
      have hmemh : hn0 ∈ dkeys hosts := hmem hn0 (List.mem_cons_self _ _)
      have hget : dget hosts hn0 ≠ none := (mem_dkeys_iff hosts hn0).mp hmemh
      obtain ⟨m1, hd⟩ := ddel_isSome_of_mem hget
      rw [hd]
      rw [List.nodup_cons] at hnd
      have hmem1 : ∀ k ∈ delKeysB hostStatus rest, k ∈ dkeys m1 := by
        intro k hk
        have hne : k ≠ hn0 := fun hh => hnd.1 (hh ▸ hk)
        rw [mem_dkeys_iff, dget_ddel_ne hosts hn0 m1 hd k hne]
        exact (mem_dkeys_iff hosts k).mp (hmem k (List.mem_cons_of_mem _ hk))
      show passZombie rest hostStatus m1 (log ++ [Event.removedZombie hn0]) = _
      rw [ih m1 (log ++ [Event.removedZombie hn0]) (dNodup_ddel hn hd) hnd.2 hmem1]
      rw [dFilterOut_ddel hosts hn0 (delKeysB hostStatus rest) hn m1 hd]
      rw [List.map_cons, List.append_assoc]
      rfl

theorem delKeysA_eq_map (st : PyDict StatusVal) :
    delKeysA st =
      (st.filter (fun p => !(p.2.status == "active"))).map (fun p => p.2.hostname) := by
  induction st with
  | nil => rfl
  | cons q rest ih =>
    obtain ⟨sn, sv⟩ := q
    rw [delKeysA_cons, List.filter_cons]
    by_cases hact : sv.status = "active"
    · rw [if_pos hact, if_neg (by simp [hact])]
      exact ih
    · rw [if_neg hact, if_pos (by simp [hact]), List.map_cons, ih]

theorem delKeysB_eq_map (hostStatus : PyDict StatusVal) (s2h : PyDict String) :
    delKeysB hostStatus s2h =
      (s2h.filter (fun q => !(dmem hostStatus q.1))).map Prod.snd := by
  induction s2h with
  | nil => rfl
  | cons q rest ih =>
    obtain ⟨sn, hn⟩ := q
    rw [delKeysB_cons, List.filter_cons]
    by_cases hm : dmem hostStatus sn
    · rw [if_pos hm, if_neg (by simp [hm])]
      exact ih
    · rw [if_neg hm, if_pos (by simp [hm]), List.map_cons, ih]

/-- Claim C4: under the data-model preconditions — unique fqdns and unique
serial numbers in the registry snapshot, status records keyed by distinct
serials, and every status record's hostname equal to the fqdn of the
registry device with the matching serial — running the zombie pass before
the inactive pass yields the same final host map as the code's inactive-
then-zombie order; the two passes delete disjoint key sets of the same
registry-derived map, so the order affects only the reported events. -/
theorem removal_passes_commute (registry : List DeviceRecord) (hostStatus : PyDict StatusVal)
    (hf : (registry.map DeviceRecord.fqdn).Nodup)
    (hs : (registry.map DeviceRecord.serialNumber).Nodup)
    (hst : (hostStatus.map Prod.fst).Nodup)
    (hcons : ∀ p ∈ hostStatus, ∃ dev ∈ registry,
      dev.serialNumber = p.1 ∧ p.2.hostname = dev.fqdn) :
    ((passInactive hostStatus (buildHosts registry) []).bind
        (fun r => passZombie (snToHn registry) hostStatus r.1 r.2)).map Prod.fst =
      ((passZombie (snToHn registry) hostStatus (buildHosts registry) []).bind
        (fun r => passInactive hostStatus r.1 r.2)).map Prod.fst := by
  have hinjf := List.inj_on_of_nodup_map hf
  have hs2h : snToHn registry = registry.map (fun d => (d.serialNumber, d.fqdn)) := by
    apply dictOf_eq_self
    simpa [List.map_map, Function.comp] using hs
  have hAchar : ∀ k ∈ delKeysA hostStatus, ∃ dev ∈ registry,
      k = dev.fqdn ∧ dmem hostStatus dev.serialNumber = true := by
    intro k hk
    rw [mem_delKeysA] at hk
    obtain ⟨p, hp, hna, hkk⟩ := hk
    obtain ⟨dev, hdev, hsn, hhn⟩ := hcons p hp
    refine ⟨dev, hdev, by rw [hkk, hhn], ?_⟩
    unfold dmem
    rw [hsn]
    have hget : dget hostStatus p.1 ≠ none := dget_mem (by rw [Prod.mk.eta]; exact hp)
    cases hg : dget hostStatus p.1 with
    | none => exact absurd hg hget
    | some v => rfl
  have hBchar : ∀ k ∈ delKeysB hostStatus (snToHn registry), ∃ dev ∈ registry,
      k = dev.fqdn ∧ dmem hostStatus dev.serialNumber = false := by
    intro k hk
    rw [hs2h, mem_delKeysB] at hk
    obtain ⟨q, hq, hfq, hkk⟩ := hk
    obtain ⟨dev, hdev, hqe⟩ := List.mem_map.mp hq
    subst hqe
    exact ⟨dev, hdev, hkk, hfq⟩
  have hAmem : ∀ k ∈ delKeysA hostStatus, k ∈ dkeys (buildHosts registry) := by
    intro k hk
    obtain ⟨dev, hdev, hkk, _⟩ := hAchar k hk
    rw [dkeys_buildHosts, hkk]
    exact List.mem_map.mpr ⟨dev, hdev, rfl⟩
  have hBmem : ∀ k ∈ delKeysB hostStatus (snToHn registry), k ∈ dkeys (buildHosts registry) := by
    intro k hk
    obtain ⟨dev, hdev, hkk, _⟩ := hBchar k hk
    rw [dkeys_buildHosts, hkk]
    exact List.mem_map.mpr ⟨dev, hdev, rfl⟩
  have hdisj : ∀ k ∈ delKeysA hostStatus, k ∉ delKeysB hostStatus (snToHn registry) := by
    intro k hkA hkB
    obtain ⟨dev, hdev, hkk, hdm⟩ := hAchar k hkA
    obtain ⟨dev', hdev', hkk', hdm'⟩ := hBchar k hkB
    have hdd : dev = dev' := hinjf hdev hdev' (by rw [← hkk, ← hkk'])
    rw [hdd] at hdm
    rw [hdm] at hdm'
    cases hdm'
  have hAnodup : (delKeysA hostStatus).Nodup := by
    rw [delKeysA_eq_map]
    have hstN : hostStatus.Nodup := List.Nodup.of_map _ hst
    have hfN : (hostStatus.filter (fun p => !(p.2.status == "active"))).Nodup := hstN.filter _
    refine List.Nodup.map_on ?_ hfN
    intro x hx y hy hxy
    have hx' := List.mem_of_mem_filter hx
    have hy' := List.mem_of_mem_filter hy
    obtain ⟨dx, hdx, hsx, hnx⟩ := hcons x hx'
    obtain ⟨dy, hdy, hsy, hny⟩ := hcons y hy'
    have hdd : dx = dy := hinjf hdx hdy (by rw [← hnx, ← hny]; exact hxy)
    have hfst : x.1 = y.1 := by rw [← hsx, ← hsy, hdd]
    exact List.inj_on_of_nodup_map hst hx' hy' hfst
  have hBnodup : (delKeysB hostStatus (snToHn registry)).Nodup := by
    rw [hs2h, delKeysB_eq_map]
    have h1 : ((registry.map (fun d => (d.serialNumber, d.fqdn))).filter
        (fun q => !(dmem hostStatus q.1))).Sublist
        (registry.map (fun d => (d.serialNumber, d.fqdn))) := List.filter_sublist _
    have h2 := h1.map Prod.snd
    rw [List.map_map] at h2
    exact List.Nodup.sublist h2 hf
  have hArun := passInactive_run hostStatus (buildHosts registry) []
    (dNodup_dictOf _) hAnodup hAmem
  have hBrun := passZombie_run (snToHn registry) hostStatus (buildHosts registry) []
    (dNodup_dictOf _) hBnodup hBmem
  have hnA : dNodup (dFilterOut (buildHosts registry) (delKeysA hostStatus)) :=
    List.Nodup.sublist ((dFilterOut_sublist _ _).map Prod.fst) (dNodup_dictOf _)
  have hnB : dNodup (dFilterOut (buildHosts registry)
      (delKeysB hostStatus (snToHn registry))) :=
    List.Nodup.sublist ((dFilterOut_sublist _ _).map Prod.fst) (dNodup_dictOf _)
  have hBmem2 : ∀ k ∈ delKeysB hostStatus (snToHn registry),
      k ∈ dkeys (dFilterOut (buildHosts registry) (delKeysA hostStatus)) := by
    intro k hk
    rw [mem_dkeys_iff, dget_dFilterOut_not_mem _ _ (fun hkA => hdisj k hkA hk)]
    exact (mem_dkeys_iff _ k).mp (hBmem k hk)
  have hAmem2 : ∀ k ∈ delKeysA hostStatus,
      k ∈ dkeys (dFilterOut (buildHosts registry)
        (delKeysB hostStatus (snToHn registry))) := by
    intro k hk
    rw [mem_dkeys_iff, dget_dFilterOut_not_mem _ _ (hdisj k hk)]
    exact (mem_dkeys_iff _ k).mp (hAmem k hk)
  have hB2run := passZombie_run (snToHn registry) hostStatus
    (dFilterOut (buildHosts registry) (delKeysA hostStatus))
    ([] ++ (delKeysA hostStatus).map Event.removedInactive) hnA hBnodup hBmem2
  have hA2run := passInactive_run hostStatus
    (dFilterOut (buildHosts registry) (delKeysB hostStatus (snToHn registry)))
    ([] ++ (delKeysB hostStatus (snToHn registry)).map Event.removedZombie)
    hnB hAnodup hAmem2
  rw [hArun, hBrun]
  show (passZombie (snToHn registry) hostStatus
      (dFilterOut (buildHosts registry) (delKeysA hostStatus))
      ([] ++ (delKeysA hostStatus).map Event.removedInactive)).map Prod.fst =
    (passInactive hostStatus
      (dFilterOut (buildHosts registry) (delKeysB hostStatus (snToHn registry)))
      ([] ++ (delKeysB hostStatus (snToHn registry)).map Event.removedZombie)).map Prod.fst
  rw [hB2run, hA2run]
  show Except.ok (dFilterOut (dFilterOut (buildHosts registry) (delKeysA hostStatus))
      (delKeysB hostStatus (snToHn registry))) =
    Except.ok (dFilterOut (dFilterOut (buildHosts registry)
      (delKeysB hostStatus (snToHn registry))) (delKeysA hostStatus))
  rw [dFilterOut_comm]

/-- Claim C4 witness: the commutation applied at a concrete snapshot with
one inactive host, one zombie host and one surviving host, all
preconditions discharged by evaluation. -/
theorem removal_passes_commute_witness :
    ((passInactive [("S1", { hostname := "a", status := "active" }),
        ("S2", { hostname := "b", status := "down" })]
      (buildHosts [⟨"a", "1.1.1.1", "S1"⟩, ⟨"b", "1.1.1.2", "S2"⟩, ⟨"c", "1.1.1.3", "S3"⟩]) []).bind
        (fun r => passZombie
          (snToHn [⟨"a", "1.1.1.1", "S1"⟩, ⟨"b", "1.1.1.2", "S2"⟩, ⟨"c", "1.1.1.3", "S3"⟩])
          [("S1", { hostname := "a", status := "active" }),
            ("S2", { hostname := "b", status := "down" })] r.1 r.2)).map Prod.fst =
      ((passZombie
          (snToHn [⟨"a", "1.1.1.1", "S1"⟩, ⟨"b", "1.1.1.2", "S2"⟩, ⟨"c", "1.1.1.3", "S3"⟩])
          [("S1", { hostname := "a", status := "active" }),
            ("S2", { hostname := "b", status := "down" })]
          (buildHosts [⟨"a", "1.1.1.1", "S1"⟩, ⟨"b", "1.1.1.2", "S2"⟩, ⟨"c", "1.1.1.3", "S3"⟩])
          []).bind
        (fun r => passInactive [("S1", { hostname := "a", status := "active" }),
          ("S2", { hostname := "b", status := "down" })] r.1 r.2)).map Prod.fst :=
  removal_passes_commute
    [⟨"a", "1.1.1.1", "S1"⟩, ⟨"b", "1.1.1.2", "S2"⟩, ⟨"c", "1.1.1.3", "S3"⟩]
    [("S1", { hostname := "a", status := "active" }),
      ("S2", { hostname := "b", status := "down" })]
    (by decide) (by decide) (by decide) (by decide)
